import Mathlib

/-!
Verification development for the bibliography-metadata resolution engine of
`src/utils/bibliographyMetadata.ts`.

The TypeScript module is shallowly embedded: JSON values become an inductive
`Json`, JS strings become Lean `String` (well-formed Unicode; a separate
UTF-16 code-unit model is used where lone surrogates matter), the two
process-wide caches become an explicit `Cache` value threaded through the
operations, and file-system access plus the two environment variables become
an `Env` record.  Node/ECMAScript builtins used by the module (`encodeURI`,
`decodeURI`, `decodeURIComponent`, `url.fileURLToPath`, `url.pathToFileURL`,
`path.resolve`, `path.join`, `os.homedir`, `process.cwd`) are modelled by
executable Lean functions documented at their definitions; the home
directory and the working directory are parameters.
-/

namespace BibMeta

/-- The double-quote character. -/
def dquote : Char := Char.ofNat 34

/-- The single-quote (apostrophe) character, used in error messages. -/
def squote : Char := Char.ofNat 39

/-- The opening curly brace character. -/
def obrace : Char := Char.ofNat 123

/-- The closing curly brace character. -/
def cbrace : Char := Char.ofNat 125

/-- Membership of a character in the ECMAScript WhiteSpace/LineTerminator
classes, i.e. the characters trimmed by `String.prototype.trim` and matched
by the regular-expression class `\s`. -/
def jsWhitespaceChar (c : Char) : Bool :=
  c = ' ' || c = '\t' || c = '\n' || c.toNat = 11 || c.toNat = 12 ||
  c = '\r' || c.toNat = 0xA0 || c.toNat = 0x1680 ||
  (0x2000 ≤ c.toNat && c.toNat ≤ 0x200A) ||
  c.toNat = 0x2028 || c.toNat = 0x2029 || c.toNat = 0x202F ||
  c.toNat = 0x205F || c.toNat = 0x3000 || c.toNat = 0xFEFF

/-- Drop trailing JS whitespace. -/
def trimEndChars : List Char → List Char
  | [] => []
  | c :: tl =>
    match trimEndChars tl with
    | [] => if jsWhitespaceChar c then [] else [c]
    | d :: r => c :: d :: r

/-- Trim on character lists: drop leading and trailing JS whitespace. -/
def trimChars (l : List Char) : List Char :=
  trimEndChars (l.dropWhile jsWhitespaceChar)

/-- Model of `String.prototype.trim`. -/
def jsTrim (s : String) : String := String.mk (trimChars s.toList)

/-- ASCII-range model of `Char` lowering, as performed by
`String.prototype.toLowerCase` on ASCII input (the only case the claims
exercise); non-ASCII characters are kept unchanged. -/
def charLower (c : Char) : Char :=
  if 'A' ≤ c && c ≤ 'Z' then Char.ofNat (c.toNat + 32) else c

/-- Model of `String.prototype.toLowerCase` (ASCII case mapping). -/
def jsToLower (s : String) : String := String.mk (s.toList.map charLower)

/-- Boolean list-prefix test: does `p` occur at the start of `l`? -/
def isPrefixList (p l : List Char) : Bool :=
  match p, l with
  | [], _ => true
  | _ :: _, [] => false
  | a :: p', b :: l' => a = b && isPrefixList p' l'

/-- Model of `String.prototype.startsWith` with a string argument. -/
def jsStartsWith (s pre : String) : Bool := isPrefixList pre.toList s.toList

/-- Boolean substring test on character lists (is `p` a contiguous
subsequence of `l`?). -/
def substrList (p l : List Char) : Bool :=
  match l with
  | [] => p.isEmpty
  | _ :: tl => isPrefixList p l || substrList p tl

/-- Model of `String.prototype.includes`. -/
def jsIncludes (s sub : String) : Bool := substrList sub.toList s.toList

/-- Model of `String.prototype.endsWith`: suffix test via reversal. -/
def jsEndsWith (s suf : String) : Bool :=
  isPrefixList suf.toList.reverse s.toList.reverse

/-- Replace every occurrence of the character `target` by the string `rep`
(model of `String.prototype.replace` with a global single-character
regular expression). -/
def expandChars (target : Char) (rep : List Char) : List Char → List Char
  | [] => []
  | c :: tl => (if c = target then rep else [c]) ++ expandChars target rep tl

/-- String wrapper for `expandChars`. -/
def jsReplaceChar (s : String) (target : Char) (rep : String) : String :=
  String.mk (expandChars target rep.toList s.toList)

/-- Replace the first occurrence of `pat` in `l` by `rep` (model of
`String.prototype.replace` with a string pattern, which replaces only the
first occurrence). -/
def replaceOnceList (pat rep : List Char) : List Char → List Char
  | [] => []
  | c :: tl =>
    if isPrefixList pat (c :: tl) then rep ++ (c :: tl).drop pat.length
    else c :: replaceOnceList pat rep tl

/-- String wrapper for `replaceOnceList`. -/
def jsReplaceOnce (s pat rep : String) : String :=
  String.mk (replaceOnceList pat.toList rep.toList s.toList)

/-- Uppercase hexadecimal digit for a value below 16. -/
def hexDigitUpper (n : Nat) : Char :=
  if n < 10 then Char.ofNat (48 + n) else Char.ofNat (55 + n)

/-- Percent-escape of one byte, `%XY` with uppercase hex digits. -/
def pctByte (b : Nat) : List Char :=
  ['%', hexDigitUpper (b / 16), hexDigitUpper (b % 16)]

/-- UTF-8 encoding of a Unicode code point as a byte list. -/
def utf8Bytes (n : Nat) : List Nat :=
  if n < 0x80 then [n]
  else if n < 0x800 then [0xC0 + n / 64, 0x80 + n % 64]
  else if n < 0x10000 then
    [0xE0 + n / 4096, 0x80 + (n / 64) % 64, 0x80 + n % 64]
  else
    [0xF0 + n / 0x40000, 0x80 + (n / 4096) % 64, 0x80 + (n / 64) % 64,
     0x80 + n % 64]

/-- Concatenated percent-escapes of a byte list. -/
def pctBytes : List Nat → List Char
  | [] => []
  | b :: bs => pctByte b ++ pctBytes bs

/-- Is `c` an ASCII letter or digit? -/
def isAsciiAlphaNum (c : Char) : Bool :=
  ('A' ≤ c && c ≤ 'Z') || ('a' ≤ c && c ≤ 'z') || ('0' ≤ c && c ≤ '9')

/-- The characters left unescaped by ECMAScript `encodeURI`:
`uriAlpha`, `DecimalDigit`, `uriMark`, `uriReserved` and `#`. -/
def encodeURIUnescaped (c : Char) : Bool :=
  isAsciiAlphaNum c ||
  c = '-' || c = '_' || c = '.' || c = '!' || c = '~' || c = '*' ||
  c = squote || c = '(' || c = ')' ||
  c = ';' || c = '/' || c = '?' || c = ':' || c = '@' || c = '&' ||
  c = '=' || c = '+' || c = '$' || c = ',' || c = '#'

/-- Character-list worker for `encodeURI`. -/
def encodeURIChars : List Char → List Char
  | [] => []
  | c :: tl =>
    (if encodeURIUnescaped c then [c] else pctBytes (utf8Bytes c.toNat)) ++
    encodeURIChars tl

/-- Model of ECMAScript `encodeURI` on well-formed Unicode strings.  On a
Lean `String` every character is a Unicode scalar value, so the `URIError`
branch of the builtin (reached only by unpaired UTF-16 surrogates) cannot
fire here; the code-unit model `cuEncodeURI` below captures that branch. -/
def encodeURI (s : String) : String := String.mk (encodeURIChars s.toList)

/-- Hexadecimal digit value of a character, if any. -/
def hexVal? (c : Char) : Option Nat :=
  if '0' ≤ c && c ≤ '9' then some (c.toNat - 48)
  else if 'A' ≤ c && c ≤ 'F' then some (c.toNat - 55)
  else if 'a' ≤ c && c ≤ 'f' then some (c.toNat - 87)
  else none

/-- The `uriReserved` characters plus `#`: escape sequences denoting these
are left undecoded by ECMAScript `decodeURI`. -/
def uriReservedHash (c : Char) : Bool :=
  c = ';' || c = '/' || c = '?' || c = ':' || c = '@' || c = '&' ||
  c = '=' || c = '+' || c = '$' || c = ',' || c = '#'

/-- Character-list worker for the ECMAScript `Decode` abstract operation.
`preserve` is the reserved set whose escape sequences are kept verbatim
(`uriReservedHash` for `decodeURI`, nothing for `decodeURIComponent`).
Returns `none` where the builtin throws `URIError` (malformed escape
sequence or invalid UTF-8). -/
def decodeChars (preserve : Char → Bool) : List Char → Option (List Char)
  | [] => some []
  | '%' :: h1 :: h2 :: tl =>
    match hexVal? h1, hexVal? h2 with
    | some a, some b =>
      let B := 16 * a + b
      if B < 0x80 then
        let c := Char.ofNat B
        if preserve c then
          (decodeChars preserve tl).map (fun r => '%' :: h1 :: h2 :: r)
        else
          (decodeChars preserve tl).map (fun r => c :: r)
      else if 0xC2 ≤ B && B ≤ 0xDF then
        match tl with
        | '%' :: h3 :: h4 :: tl2 =>
          match hexVal? h3, hexVal? h4 with
          | some a2, some b2 =>
            let B2 := 16 * a2 + b2
            if 0x80 ≤ B2 && B2 ≤ 0xBF then
              let cp := (B - 0xC0) * 64 + (B2 - 0x80)
              (decodeChars preserve tl2).map (fun r => Char.ofNat cp :: r)
            else none
          | _, _ => none
        | _ => none
      else if 0xE0 ≤ B && B ≤ 0xEF then
        match tl with
        | '%' :: h3 :: h4 :: '%' :: h5 :: h6 :: tl2 =>
          match hexVal? h3, hexVal? h4, hexVal? h5, hexVal? h6 with
          | some a2, some b2, some a3, some b3 =>
            let B2 := 16 * a2 + b2
            let B3 := 16 * a3 + b3
            if (0x80 ≤ B2 && B2 ≤ 0xBF) && (0x80 ≤ B3 && B3 ≤ 0xBF) then
              let cp := (B - 0xE0) * 4096 + (B2 - 0x80) * 64 + (B3 - 0x80)
              if 0x800 ≤ cp && ¬ (0xD800 ≤ cp && cp ≤ 0xDFFF) then
                (decodeChars preserve tl2).map (fun r => Char.ofNat cp :: r)
              else none
            else none
          | _, _, _, _ => none
        | _ => none
      else if 0xF0 ≤ B && B ≤ 0xF4 then
        match tl with
        | '%' :: h3 :: h4 :: '%' :: h5 :: h6 :: '%' :: h7 :: h8 :: tl2 =>
          match hexVal? h3, hexVal? h4, hexVal? h5, hexVal? h6,
                hexVal? h7, hexVal? h8 with
          | some a2, some b2, some a3, some b3, some a4, some b4 =>
            let B2 := 16 * a2 + b2
            let B3 := 16 * a3 + b3
            let B4 := 16 * a4 + b4
            if (0x80 ≤ B2 && B2 ≤ 0xBF) && (0x80 ≤ B3 && B3 ≤ 0xBF) &&
               (0x80 ≤ B4 && B4 ≤ 0xBF) then
              let cp := (B - 0xF0) * 0x40000 + (B2 - 0x80) * 4096 +
                        (B3 - 0x80) * 64 + (B4 - 0x80)
              if 0x10000 ≤ cp && cp ≤ 0x10FFFF then
                (decodeChars preserve tl2).map (fun r => Char.ofNat cp :: r)
              else none
            else none
          | _, _, _, _, _, _ => none
        | _ => none
      else none
    | _, _ => none
  | '%' :: _ :: [] => none
  | '%' :: [] => none
  | c :: tl => (decodeChars preserve tl).map (fun r => c :: r)

/-- Model of ECMAScript `decodeURI`; `none` models a thrown `URIError`. -/
def decodeURIOpt (s : String) : Option String :=
  (decodeChars uriReservedHash s.toList).map String.mk

/-- Model of ECMAScript `decodeURIComponent`. -/
def decodeURIComponentOpt (s : String) : Option String :=
  (decodeChars (fun _ => false) s.toList).map String.mk

/-- Split a character list at every `/`. -/
def splitSlash (l : List Char) : List (List Char) :=
  match l with
  | [] => [[]]
  | '/' :: tl => [] :: splitSlash tl
  | c :: tl =>
    match splitSlash tl with
    | [] => [[c]]
    | seg :: rest => (c :: seg) :: rest

/-- Join character-list segments with `/`. -/
def joinSlash : List (List Char) → List Char
  | [] => []
  | [seg] => seg
  | seg :: rest => seg ++ '/' :: joinSlash rest

/-- Segment processing for absolute posix path resolution: empty and `.`
segments are dropped, `..` pops the previous segment. -/
def resolveSegs : List (List Char) → List (List Char) → List (List Char)
  | stack, [] => stack
  | stack, seg :: rest =>
    if seg = [] || seg = ['.'] then resolveSegs stack rest
    else if seg = ['.', '.'] then resolveSegs stack.dropLast rest
    else resolveSegs (stack ++ [seg]) rest

/-- Model of Node `path.resolve(p)` on posix for an absolute working
directory `cwd` (which Node guarantees): make `p` absolute against `cwd`
and normalize `.`, `..`, repeated and trailing slashes. -/
def pathResolve (cwd p : String) : String :=
  let s := if jsStartsWith p "/" then p else cwd ++ "/" ++ p
  let segs := resolveSegs [] (splitSlash s.toList)
  String.mk ('/' :: joinSlash segs)

/-- Segment processing for Node `path.normalize` on a relative path:
leading `..` segments that cannot pop are kept. -/
def normalizeSegsRel : List (List Char) → List (List Char) → List (List Char)
  | stack, [] => stack
  | stack, seg :: rest =>
    if seg = [] || seg = ['.'] then normalizeSegsRel stack rest
    else if seg = ['.', '.'] then
      match stack.getLast? with
      | some last => if last = ['.', '.'] then normalizeSegsRel (stack ++ [seg]) rest
                     else normalizeSegsRel stack.dropLast rest
      | none => normalizeSegsRel (stack ++ [seg]) rest
    else normalizeSegsRel (stack ++ [seg]) rest

/-- Model of Node `path.normalize` on posix. -/
def pathNormalize (s : String) : String :=
  let abs := jsStartsWith s "/"
  let segs :=
    if abs then resolveSegs [] (splitSlash s.toList)
    else normalizeSegsRel [] (splitSlash s.toList)
  let core := joinSlash segs
  let out := if abs then String.mk ('/' :: core) else String.mk core
  let out := if out = "" then "." else out
  if jsEndsWith s "/" && ¬ jsEndsWith out "/" then out ++ "/" else out

/-- Model of Node `path.join(a, b)` on posix. -/
def pathJoin (a b : String) : String :=
  if a = "" && b = "" then "."
  else if a = "" then pathNormalize b
  else if b = "" then pathNormalize a
  else pathNormalize (a ++ "/" ++ b)

/-- Does the character list contain an encoded slash `%2F`/`%2f`?  Node
`fileURLToPath` refuses such URLs. -/
def hasEncodedSlash (l : List Char) : Bool :=
  substrList ['%', '2', 'F'] l || substrList ['%', '2', 'f'] l

/-- Model of Node `url.fileURLToPath` on posix, restricted to the shapes
the module can feed it (a string whose lowercasing starts with `file://`).
`none` models a thrown error: non-file scheme, URL without a path, a
non-localhost host, an encoded slash, or a malformed/invalid
percent-encoded path (Node decodes the path with `decodeURIComponent`).
WHATWG dot-segment normalization of the URL path is not modelled; no claim
depends on it. -/
def fileURLToPath (s : String) : Option String :=
  if ¬ jsStartsWith (jsToLower s) "file://" then none
  else
    let rest := s.toList.drop 7
    let host := rest.takeWhile (fun c => c ≠ '/')
    let pp := rest.dropWhile (fun c => c ≠ '/')
    if pp = [] then none
    else if host ≠ [] && jsToLower (String.mk host) ≠ "localhost" then none
    else if hasEncodedSlash pp then none
    else (decodeChars (fun _ => false) pp).map String.mk

/-- Percent-escapes applied by Node `pathToFileURL` before URL assembly:
`%`, `\`, newline, carriage return and tab. -/
def encodePathChar (c : Char) : List Char :=
  if c = '%' then ['%', '2', '5']
  else if c = '\\' then ['%', '5', 'C']
  else if c = '\n' then ['%', '0', 'A']
  else if c = '\r' then ['%', '0', 'D']
  else if c = '\t' then ['%', '0', '9']
  else [c]

/-- The WHATWG path percent-encode set (C0 controls, DEL, non-ASCII, space,
double quote, `<`, `>`, backtick, `#`, `?`, `\x7b`, `\x7d`), applied when the
URL path is assigned. -/
def urlPathEncodeChar (c : Char) : List Char :=
  if c.toNat ≤ 0x1F || c.toNat ≥ 0x7F || c = ' ' || c = dquote ||
     c = '<' || c = '>' || c.toNat = 0x60 || c = '#' || c = '?' ||
     c = obrace || c = cbrace then
    pctBytes (utf8Bytes c.toNat)
  else [c]

/-- Flatten a per-character expansion over a character list. -/
def expandEach (f : Char → List Char) : List Char → List Char
  | [] => []
  | c :: tl => f c ++ expandEach f tl

/-- Model of Node `url.pathToFileURL` on posix: resolve the path against
the working directory, re-add a trailing slash the resolution dropped,
escape the special path characters and assemble a `file://` URL. -/
def pathToFileURL (cwd p : String) : String :=
  let resolved := pathResolve cwd p
  let resolved :=
    if jsEndsWith p "/" && ¬ jsEndsWith resolved "/" then resolved ++ "/"
    else resolved
  "file://" ++
    String.mk (expandEach urlPathEncodeChar
      (expandEach encodePathChar resolved.toList))

/-- Embedding of `normalizeComparisonString` (the path canonicalizer):
trim; if the lowercased value starts with `file://`, convert it with
`fileURLToPath`, ignoring conversion failure; replace every backslash with
a forward slash. -/
def normalizeComparisonString (s : String) : String :=
  let t := jsTrim s
  let t := if jsStartsWith (jsToLower t) "file://" then
             (fileURLToPath t).getD t
           else t
  jsReplaceChar t '\\' "/"

/-- First-occurrence-preserving insertion, the JS `Set.add` on a list kept
in insertion order. -/
def insertUnique (l : List String) (x : String) : List String :=
  if x ∈ l then l else l ++ [x]

/-- Deduplicate keeping the first occurrence of each element, the order
`Array.from` observes on a JS `Set` filled by successive `add` calls. -/
def setFromList (l : List String) : List String :=
  l.foldl insertUnique []

/-- The raw variant list built by `generatePathVariants` before
deduplication, in `Set` insertion order.  `cwd` is the process working
directory consulted by `pathToFileURL`. -/
def rawPathVariants (cwd finderPath : String) : List String :=
  let normalized := jsReplaceChar finderPath '\\' "/"
  let encoded := encodeURI normalized
  let fileUrl := pathToFileURL cwd normalized
  [normalized] ++
  (if jsStartsWith normalized "/" then
    [":" ++ normalized, ":" ++ normalized ++ ":"] else []) ++
  [encoded] ++
  (if jsStartsWith encoded "/" then
    [":" ++ encoded, ":" ++ encoded ++ ":"] else []) ++
  [fileUrl, jsReplaceOnce fileUrl "file://" ""] ++
  [jsReplaceChar normalized ' ' "\\ ", jsReplaceChar normalized ' ' "%20"]

/-- Embedding of `generatePathVariants`: collect the raw variants in a
`Set` (deduplicating in insertion order) and only then map
`normalizeComparisonString` over the deduplicated array. -/
def generatePathVariants (cwd finderPath : String) : List String :=
  (setFromList (rawPathVariants cwd finderPath)).map normalizeComparisonString

/-- Embedding of `matchStringAgainstVariants`: canonicalize the value and
accept equality with, or containment of, any variant. -/
def matchStringAgainstVariants (value : String) (variants : List String) : Bool :=
  let normalizedValue := normalizeComparisonString value
  variants.any (fun variant =>
    normalizedValue = variant || jsIncludes normalizedValue variant)

/-- Embedding of `decodeUriSafe`: `decodeURI`, keeping the un-decoded
string when the builtin throws. -/
def decodeUriSafe (s : String) : String := (decodeURIOpt s).getD s

/-- Embedding of `expandHomeDirectory`; `home` models `os.homedir()`. -/
def expandHomeDirectory (home value : String) : String :=
  if jsStartsWith value "~/" then
    if home ≠ "" then pathJoin home (String.mk (value.toList.drop 2))
    else value
  else value

/-- Embedding of `PATH_HINT_KEYS`. -/
def PATH_HINT_KEYS : List String :=
  ["path", "localPath", "file", "uri", "url", "relativePath"]

/-- The extensions of `ATTACHMENT_EXTENSION_REGEX`, lowercased. -/
def attachmentExtensions : List String :=
  ["pdf", "doc", "docx", "ppt", "pptx", "rtf", "txt", "md", "htm", "html",
   "epub", "zip", "gz", "xls", "xlsx", "csv", "png", "jpg", "jpeg", "gif",
   "tiff", "heic"]

/-- Case-insensitive test of `ATTACHMENT_EXTENSION_REGEX` (`\.(pdf|...)$`). -/
def matchesAttachmentExt (s : String) : Bool :=
  attachmentExtensions.any (fun e => jsEndsWith (jsToLower s) ("." ++ e))

/-- Test of the non-local scheme guard `/^(https?|zotero|attachment):\/\//i`. -/
def matchesNonLocalScheme (s : String) : Bool :=
  let lt := jsToLower s
  jsStartsWith lt "http://" || jsStartsWith lt "https://" ||
  jsStartsWith lt "zotero://" || jsStartsWith lt "attachment://"

/-- Test of the drive-letter pattern `/^[A-Za-z]:[\\/]/`. -/
def matchesDriveLetter (s : String) : Bool :=
  match s.toList with
  | a :: b :: c :: _ =>
    (('A' ≤ a && a ≤ 'Z') || ('a' ≤ a && a ≤ 'z')) && b = ':' &&
    (c = '\\' || c = '/')
  | _ => false

/-- Embedding of `normalizeAttachmentPath`: trim (null on empty),
canonicalize (null on empty), strip one leading `:`, URL-decode tolerating
failure, expand a leading `~/`. -/
def normalizeAttachmentPath (home value : String) : Option String :=
  let trimmed := jsTrim value
  if trimmed = "" then none
  else
    let normalized := normalizeComparisonString trimmed
    if normalized = "" then none
    else
      let normalized :=
        if jsStartsWith normalized ":" then String.mk (normalized.toList.drop 1)
        else normalized
      let normalized := decodeUriSafe normalized
      some (expandHomeDirectory home normalized)

/-- Embedding of `isLikelyLocalAttachment`. -/
def isLikelyLocalAttachment (value : String) (keyHint : Option String) : Bool :=
  let trimmed := jsTrim value
  if trimmed = "" then false
  else if matchesNonLocalScheme trimmed then false
  else
    let normalized := normalizeComparisonString trimmed
    if (match keyHint with
        | some k => PATH_HINT_KEYS.contains k
        | none => false) then true
    else if jsStartsWith normalized "/" || jsStartsWith normalized "~" ||
            jsStartsWith normalized ":" then true
    else if matchesDriveLetter trimmed then true
    else matchesAttachmentExt normalized

/-- JSON-like values, the closed variant type behind the `unknown` tree the
structured-export walker scans.  Object fields are kept in insertion order;
`JSON.parse` never produces duplicate keys, so first-binding lookup below
coincides with JS property access. -/
inductive Json where
  | null : Json
  | bool (b : Bool) : Json
  | num (n : Int) : Json
  | str (s : String) : Json
  | arr (xs : List Json) : Json
  | obj (kvs : List (String × Json)) : Json
deriving Repr

mutual

/-- Does the JSON tree contain any string leaf?  (Used to state when the
permissive variant matching of an empty query finds a hit.) -/
def containsString : Json → Bool
  | .str _ => true
  | .arr xs => containsStringArr xs
  | .obj kvs => containsStringObj kvs
  | _ => false

/-- Array case of `containsString`. -/
def containsStringArr : List Json → Bool
  | [] => false
  | x :: xs => containsString x || containsStringArr xs

/-- Object case of `containsString`. -/
def containsStringObj : List (String × Json) → Bool
  | [] => false
  | kv :: kvs => containsString kv.2 || containsStringObj kvs

end

/-- JS truthiness of a parsed JSON value (the `if (!parsed)` guard). -/
def jsFalsy : Json → Bool
  | .null => true
  | .bool b => !b
  | .num n => n = 0
  | .str s => s = ""
  | _ => false

/-- Does the value satisfy `value && typeof value === "object"` (JS arrays
are objects; `null` is falsy)? -/
def jsObjectLike : Json → Bool
  | .obj _ => true
  | .arr _ => true
  | _ => false

/-- Model of `Object.entries` of a JSON value: the own enumerable properties in
insertion order; for an array, index keys in ascending order. -/
def jsEntriesOf : Json → List (String × Json)
  | .obj kvs => kvs
  | .arr xs => xs.enum.map (fun p => (toString p.1, p.2))
  | _ => []

/-- JS property access `source[key]` on the entries of a value (objects
have unique keys, so the first binding is the binding). -/
def jsGet (kvs : List (String × Json)) (k : String) : Option Json :=
  match kvs with
  | [] => none
  | (k', v) :: tl => if k' = k then some v else jsGet tl k

mutual

/-- Embedding of the `visit` closure of `collectJsonAttachmentPaths`:
depth-first scan collecting normalized likely-attachment strings into a
deduplicating, insertion-ordered set (`acc`).  The `if (normalized)` guard
is JS truthiness: both `null` and the empty string are skipped. -/
def collectVisit (home : String) (value : Json) (keyHint : Option String)
    (acc : List String) : List String :=
  match value with
  | .str s =>
    if isLikelyLocalAttachment s keyHint then
      match normalizeAttachmentPath home s with
      | some n => if n = "" then acc else insertUnique acc n
      | none => acc
    else acc
  | .arr xs => collectVisitArr home xs keyHint acc
  | .obj kvs => collectVisitObj home kvs acc
  | _ => acc

/-- Element-wise traversal of an array with the inherited key hint. -/
def collectVisitArr (home : String) (xs : List Json) (keyHint : Option String)
    (acc : List String) : List String :=
  match xs with
  | [] => acc
  | x :: tl => collectVisitArr home tl keyHint (collectVisit home x keyHint acc)

/-- Traversal of an object, each child visited with its own key as hint. -/
def collectVisitObj (home : String) (kvs : List (String × Json))
    (acc : List String) : List String :=
  match kvs with
  | [] => acc
  | (k, v) :: tl => collectVisitObj home tl (collectVisit home v (some k) acc)

end

/-- Embedding of `collectJsonAttachmentPaths` for one entry value. -/
def collectJsonAttachmentPaths (home : String) (item : Json) : List String :=
  collectVisit home item none []

/-- Embedding of `getFirstStringFromKeys`: the first key bound to a string
with non-blank trim, trimmed. -/
def getFirstStringFromKeys (source : List (String × Json)) :
    List String → Option String
  | [] => none
  | k :: ks =>
    match jsGet source k with
    | some (.str s) =>
      if jsTrim s ≠ "" then some (jsTrim s)
      else getFirstStringFromKeys source ks
    | _ => getFirstStringFromKeys source ks

/-- Embedding of `normalizeKey`: trim then lowercase. -/
def normalizeKey (value : String) : String := jsToLower (jsTrim value)

/-- The result record of `findMatchingTopLevelField`. -/
structure TopLevelFieldMatch where
  value : String
  field : String
  propertyPath : List String
deriving Repr

/-- Embedding of `findMatchingTopLevelField`: the first listed key whose
string value has the same normalized form as the target. -/
def findMatchingTopLevelField (source : List (String × Json))
    (keys : List String) (target : String) : Option TopLevelFieldMatch :=
  match keys with
  | [] => none
  | k :: ks =>
    match jsGet source k with
    | some (.str s) =>
      if normalizeKey s = normalizeKey target then
        some { value := s, field := k, propertyPath := [k] }
      else findMatchingTopLevelField source ks target
    | _ => findMatchingTopLevelField source ks target

/-- The unified metadata descriptor (`BibliographyMetadataDescriptor`);
`source` is the literal "json" or "bib". -/
structure BibliographyMetadataDescriptor where
  source : String
  citationKey : Option String
  bibliographyId : Option String
  title : Option String
  attachmentPaths : List String
deriving Repr

/-- Embedding of `buildJsonDescriptor`; the entry is accessed through its
`Object.entries` view so that array-shaped entries behave as in JS. -/
def buildJsonDescriptor (home : String) (item : Json) :
    BibliographyMetadataDescriptor :=
  let kvs := jsEntriesOf item
  { source := "json"
    citationKey := getFirstStringFromKeys kvs ["citationKey", "citationkey", "id"]
    bibliographyId :=
      getFirstStringFromKeys kvs ["bibliographyId", "zotero_id", "key", "id"]
    title := getFirstStringFromKeys kvs ["title"]
    attachmentPaths := collectJsonAttachmentPaths home item }

/-- Embedding of `getJsonEntries`: a top-level array is the entry list, an
object with an `items` array uses that list, any other object is a single
entry, non-objects give no entries. -/
def getJsonEntries (data : Json) : List Json :=
  match data with
  | .arr xs => xs
  | .obj kvs =>
    match jsGet kvs "items" with
    | some (.arr xs) => xs
    | _ => [data]
  | _ => []

mutual

/-- Embedding of `findPathInJsonValue`: depth-first pre-order search for
the first string matching the variant set, carrying the property path. -/
def findPathInJsonValue (value : Json) (variants : List String)
    (propertyPath : List String) : Option (List String × String) :=
  match value with
  | .str s =>
    if matchStringAgainstVariants s variants then some (propertyPath, s)
    else none
  | .arr xs => findPathInJsonArr xs variants propertyPath 0
  | .obj kvs => findPathInJsonObj kvs variants propertyPath
  | _ => none

/-- Array case: ascending indices, path element `[i]`. -/
def findPathInJsonArr (xs : List Json) (variants : List String)
    (propertyPath : List String) (index : Nat) :
    Option (List String × String) :=
  match xs with
  | [] => none
  | x :: tl =>
    match findPathInJsonValue x variants
        (propertyPath ++ ["[" ++ toString index ++ "]"]) with
    | some r => some r
    | none => findPathInJsonArr tl variants propertyPath (index + 1)

/-- Object case: keys in insertion order. -/
def findPathInJsonObj (kvs : List (String × Json)) (variants : List String)
    (propertyPath : List String) : Option (List String × String) :=
  match kvs with
  | [] => none
  | (k, v) :: tl =>
    match findPathInJsonValue v variants (propertyPath ++ [k]) with
    | some r => some r
    | none => findPathInJsonObj tl variants propertyPath

end

/-- A parsed text-export entry (`BibEntry`): type, key, lowercased field
map in insertion order, and the raw entry text. -/
structure BibEntry where
  type : String
  key : String
  fields : List (String × String)
  rawEntry : String
deriving Repr, DecidableEq

/-- First-binding association lookup (JS property access on an object kept
as an insertion-ordered list with unique keys). -/
def assocFind {α : Type} (l : List (String × α)) (k : String) : Option α :=
  match l with
  | [] => none
  | (k', v) :: tl => if k' = k then some v else assocFind tl k

/-- Association update: overwrite an existing binding in place (JS object
assignment keeps the original key position), else append. -/
def assocSet {α : Type} (l : List (String × α)) (k : String) (v : α) :
    List (String × α) :=
  match l with
  | [] => [(k, v)]
  | (k', v') :: tl =>
    if k' = k then (k', v) :: tl else (k', v') :: assocSet tl k v

/-- Split a character list at every occurrence of `sep`
(model of `String.prototype.split` with a one-character separator). -/
def splitOnChar (sep : Char) (l : List Char) : List (List Char) :=
  match l with
  | [] => [[]]
  | c :: tl =>
    if c = sep then [] :: splitOnChar sep tl
    else
      match splitOnChar sep tl with
      | [] => [[c]]
      | seg :: rest => (c :: seg) :: rest

/-- The middle capture group of `/^([^:]+):(.+):([^:]+)$/`: everything
between the first and the last colon, provided both outer groups and the
middle are non-empty. -/
def tripleColonMiddle (l : List Char) : Option (List Char) :=
  let g1 := l.takeWhile (fun c => c ≠ ':')
  let g3 := (l.reverse.takeWhile (fun c => c ≠ ':')).reverse
  if 1 ≤ g1.length && 1 ≤ g3.length && g1.length + g3.length + 3 ≤ l.length then
    some ((l.drop (g1.length + 1)).take (l.length - g1.length - g3.length - 2))
  else none

/-- Embedding of `parseBibFileField`: split the field on `;`, trim the
segments, drop empty ones, extract the middle colon-delimited group of
each and normalize it, keeping truthy results in order (the
`if (normalized)` guard skips both `null` and the empty string). -/
def parseBibFileField (home : String) (value : String) : List String :=
  let segments :=
    ((splitOnChar ';' value.toList).map trimChars).filter (fun seg => seg ≠ [])
  segments.filterMap (fun seg =>
    (tripleColonMiddle seg).bind (fun mid =>
      match normalizeAttachmentPath home (String.mk mid) with
      | some n => if n = "" then none else some n
      | none => none))

/-- Worker of `collectBibAttachmentPaths`: fold over the fields in order,
`file` fields via `parseBibFileField`, other fields via the hint-key check
and the attachment heuristic, into a deduplicating ordered set. -/
def collectBibFold (home : String) (acc : List String) :
    List (String × String) → List String
  | [] => acc
  | (k, v) :: tl =>
    if jsToLower k = "file" then
      collectBibFold home ((parseBibFileField home v).foldl insertUnique acc) tl
    else if PATH_HINT_KEYS.contains k && isLikelyLocalAttachment v (some k) then
      match normalizeAttachmentPath home v with
      | some n => collectBibFold home (if n = "" then acc else insertUnique acc n) tl
      | none => collectBibFold home acc tl
    else collectBibFold home acc tl

/-- Embedding of `collectBibAttachmentPaths`. -/
def collectBibAttachmentPaths (home : String) (e : BibEntry) : List String :=
  collectBibFold home [] e.fields

/-- Embedding of `buildBibDescriptor`. -/
def buildBibDescriptor (home : String) (e : BibEntry) :
    BibliographyMetadataDescriptor :=
  { source := "bib"
    citationKey := some e.key
    bibliographyId :=
      assocFind e.fields "zotero_id" <|> assocFind e.fields "id" <|>
        assocFind e.fields "citationkey"
    title := assocFind e.fields "title"
    attachmentPaths := collectBibAttachmentPaths home e }

/-- Brace-balanced value scan of `parseBibValue`: depth-counted consumption
that strips the outermost pair; an unbalanced value consumes to the end. -/
def bracedScan (depth : Nat) (acc : List Char) : List Char → List Char × List Char
  | [] => (acc, [])
  | c :: tl =>
    let depth' := if c = obrace then depth + 1
                  else if c = cbrace then depth - 1 else depth
    if depth' = 0 then (acc, tl) else bracedScan depth' (acc ++ [c]) tl

/-- Quoted value scan of `parseBibValue`: consume until a double quote not
preceded by a backslash; `prev` is the previous character of the input. -/
def quotedScan (prev : Char) (acc : List Char) : List Char → List Char × List Char
  | [] => (acc, [])
  | c :: tl =>
    if c = dquote && prev ≠ '\\' then (acc, tl)
    else quotedScan c (acc ++ [c]) tl

/-- Embedding of `parseBibValue` with the cursor expressed as the remaining
suffix: skip whitespace and commas, then parse a braced, quoted or bare
value, returning the trimmed value and the rest of the input. -/
def parseBibValue (l : List Char) : String × List Char :=
  let rest := l.dropWhile (fun c => jsWhitespaceChar c || c = ',')
  match rest with
  | [] => ("", [])
  | c :: tl =>
    if c = obrace then
      let r := bracedScan 1 [] tl
      (jsTrim (String.mk r.1), r.2)
    else if c = dquote then
      let r := quotedScan dquote [] tl
      (jsTrim (String.mk r.1), r.2)
    else
      let bare := rest.takeWhile (fun c => c ≠ ',' && c ≠ '\n')
      (jsTrim (String.mk bare), rest.dropWhile (fun c => c ≠ ',' && c ≠ '\n'))

/-- The field-key character class `[A-Za-z0-9_\-]` of `parseBibFields`. -/
def isBibKeyChar (c : Char) : Bool := isAsciiAlphaNum c || c = '_' || c = '-'

/-- Worker of `parseBibFields`.  The JS `while` loop advances its index by
at least one character per iteration; `fuel` bounds the iteration count, so
any fuel of at least the remaining length reproduces the loop exactly. -/
def parseBibFieldsGo (fields : List (String × String)) :
    Nat → List Char → List (String × String)
  | 0, _ => fields
  | fuel + 1, l =>
    let rest := l.dropWhile (fun c => jsWhitespaceChar c || c = ',')
    match rest with
    | [] => fields
    | _ :: _ =>
      let key := rest.takeWhile isBibKeyChar
      if key = [] then parseBibFieldsGo fields fuel (rest.drop 1)
      else
        let rest1 := (rest.dropWhile isBibKeyChar).dropWhile jsWhitespaceChar
        match rest1 with
        | '=' :: tl =>
          let r := parseBibValue tl
          parseBibFieldsGo
            (assocSet fields (jsToLower (jsTrim (String.mk key))) r.1) fuel r.2
        | _ => parseBibFieldsGo fields fuel (rest1.drop 1)

/-- Embedding of `parseBibFields`: left-to-right field scan storing each
value under the lowercased key, later duplicates overwriting in place. -/
def parseBibFields (body : String) : List (String × String) :=
  parseBibFieldsGo [] (body.toList.length + 1) body.toList

/-- Last index of `target` in the list, if present. -/
def lastIdxOf (target : Char) : List Char → Option Nat
  | [] => none
  | c :: tl =>
    match lastIdxOf target tl with
    | some i => some (i + 1)
    | none => if c = target then some 0 else none

/-- The word-character class `\w` of the header pattern. -/
def isWordCharJs (c : Char) : Bool := isAsciiAlphaNum c || c = '_'

/-- Embedding of `parseBibEntry`.  The header pattern
`/^@(\w+)\s*\{\s*([^,]+),/` is unfolded: after `@`, a non-empty word, then
whitespace, an opening brace, and a non-empty segment before the first
comma (the greedy `\s*` backtracks into the capture when needed, so the
match succeeds exactly when that whole segment is non-empty, and the key is
that segment trimmed).  The body runs from the end of the header to the
last closing brace (to the second-to-last character when there is none,
as `slice` receives `-1`). -/
def parseBibEntry (entryText : String) : Option BibEntry :=
  match entryText.toList with
  | '@' :: rest =>
    let word := rest.takeWhile isWordCharJs
    if word = [] then none
    else
      let rest1 := rest.dropWhile isWordCharJs
      let ws1 := rest1.takeWhile jsWhitespaceChar
      let rest2 := rest1.dropWhile jsWhitespaceChar
      match rest2 with
      | c :: rest3 =>
        if c = obrace then
          let seg := rest3.takeWhile (fun c => c ≠ ',')
          match rest3.dropWhile (fun c => c ≠ ',') with
          | ',' :: _ =>
            if seg = [] then none
            else
              let headerLen := 1 + word.length + ws1.length + 1 + seg.length + 1
              let chars := entryText.toList
              let endIdx := (lastIdxOf cbrace chars).getD (chars.length - 1)
              let body := (chars.take endIdx).drop headerLen
              some { type := String.mk word
                     key := jsTrim (String.mk seg)
                     fields := parseBibFields (String.mk body)
                     rawEntry := jsTrim entryText }
          | _ => none
        else none
      | [] => none
  | _ => none

/-- Entry-boundary brace scan of `findBibEntries`: consume from depth 1
until the balancing close brace, returning the consumed text (including
that brace) and the rest; `none` when the input ends unbalanced. -/
def braceScanEntry (depth : Nat) (acc : List Char) :
    List Char → Option (List Char × List Char)
  | [] => none
  | c :: tl =>
    let depth' := if c = obrace then depth + 1
                  else if c = cbrace then depth - 1 else depth
    if depth' = 0 then some (acc ++ [c], tl)
    else braceScanEntry depth' (acc ++ [c]) tl

/-- Worker of `findBibEntries`; as in `parseBibFieldsGo`, `fuel` bounds the
iterations of a loop that always advances. -/
def findBibEntriesGo : Nat → List Char → List (List Char)
  | 0, _ => []
  | fuel + 1, l =>
    let afterAt := l.dropWhile (fun c => c ≠ '@')
    match afterAt with
    | [] => []
    | _ :: _ =>
      let pre := afterAt.takeWhile (fun c => c ≠ obrace)
      match afterAt.dropWhile (fun c => c ≠ obrace) with
      | [] => []
      | _ :: afterBrace =>
        match braceScanEntry 1 [] afterBrace with
        | some (scanned, rest) =>
          (pre ++ obrace :: scanned) :: findBibEntriesGo fuel rest
        | none => []

/-- Embedding of `findBibEntries`: split the text into `@`-to-balancing
brace entry strings; unbalanced trailing content is discarded. -/
def findBibEntries (content : String) : List String :=
  (findBibEntriesGo (content.toList.length + 1) content.toList).map String.mk

/-- Read-then-parse of a text export's raw content (the pure part of
`readBibCache`). -/
def parseBibContent (content : String) : List BibEntry :=
  (findBibEntries content).filterMap parseBibEntry

/-- A successful structured-export match (`BibliographyJsonMatch`; the
`success: true` and `source: "json"` discriminants are carried by the
`LookupResult` constructor). -/
structure BibliographyJsonMatch where
  item : Json
  matchType : String
  matchValue : String
  propertyPath : List String
  descriptor : BibliographyMetadataDescriptor
  metadataFile : Option String
  matchedField : Option String
deriving Repr

/-- A successful text-export match (`BibliographyBibMatch`). -/
structure BibliographyBibMatch where
  entry : BibEntry
  rawEntry : String
  matchType : String
  matchValue : String
  descriptor : BibliographyMetadataDescriptor
  metadataFile : Option String
  matchedField : Option String
deriving Repr

/-- The discriminated lookup result: a structured-export match, a
text-export match, or `{ success: false, errors }`. -/
inductive LookupResult where
  | jsonMatch (m : BibliographyJsonMatch) : LookupResult
  | bibMatch (m : BibliographyBibMatch) : LookupResult
  | failure (errors : List String) : LookupResult
deriving Repr

/-- The ambient process state the module reads: the two environment
variables, `fs.access` reachability, `fs.readFile` content (`none` models a
thrown read error), `JSON.parse` (`none` models a parse throw; carried in
the environment so theorems hold for every parse behavior), `os.homedir()`
and `process.cwd()`. -/
structure Env where
  envJson : Option String
  envBib : Option String
  access : String → Bool
  readFile : String → Option String
  parseJson : String → Option Json
  home : String
  cwd : String

/-- The process-wide `CACHE` object: parsed structured exports and parsed
text-export entry lists, keyed by file path. -/
structure Cache where
  json : List (String × Json)
  bib : List (String × List BibEntry)

/-- The cache at process start. -/
def emptyCache : Cache := { json := [], bib := [] }

/-- Is the value the JSON `null`? -/
def isJsonNull : Json → Bool
  | .null => true
  | _ => false

/-- Embedding of `readJsonCache`: a hit returns the cached value (`?? null`
turns a cached JSON `null` into `null`); a miss reads and parses, caches
only on parse success, and returns `null` on a read or parse throw. -/
def readJsonCache (env : Env) (c : Cache) (filePath : String) :
    Option Json × Cache :=
  match assocFind c.json filePath with
  | some v => (if isJsonNull v then none else some v, c)
  | none =>
    match env.readFile filePath with
    | none => (none, c)
    | some raw =>
      match env.parseJson raw with
      | none => (none, c)
      | some parsed =>
        (if isJsonNull parsed then none else some parsed,
         { c with json := assocSet c.json filePath parsed })

/-- Embedding of `readBibCache`: a hit returns the cached entry list; a
miss reads, splits and parses (both pure and total), caches the entry list
and returns it, or returns `null` on a read throw without caching. -/
def readBibCache (env : Env) (c : Cache) (filePath : String) :
    Option (List BibEntry) × Cache :=
  match assocFind c.bib filePath with
  | some entries => (some entries, c)
  | none =>
    match env.readFile filePath with
    | none => (none, c)
    | some content =>
      let entries := parseBibContent content
      (some entries, { c with bib := assocSet c.bib filePath entries })

/-- Entry scan of `lookupInJson`: skip entries that are not (truthy) JS
objects; on the first entry whose tree contains a variant match, build the
match record. -/
def lookupInJsonPure (home : String) (variants : List String)
    (filePath : String) : List Json → Option BibliographyJsonMatch
  | [] => none
  | e :: rest =>
    if jsObjectLike e then
      match findPathInJsonValue e variants [] with
      | some r =>
        some { item := e, matchType := "path", matchValue := r.2
               propertyPath := r.1, descriptor := buildJsonDescriptor home e
               metadataFile := some filePath, matchedField := r.1.getLast? }
      | none => lookupInJsonPure home variants filePath rest
    else lookupInJsonPure home variants filePath rest

/-- Embedding of `lookupInJson`: compute the variants, read through the
cache, bail out on a missing/falsy parse, then scan the entries. -/
def lookupInJson (env : Env) (c : Cache) (finderPath filePath : String) :
    Option BibliographyJsonMatch × Cache :=
  let variants := generatePathVariants env.cwd finderPath
  match readJsonCache env c filePath with
  | (none, c') => (none, c')
  | (some parsed, c') =>
    if jsFalsy parsed then (none, c')
    else (lookupInJsonPure env.home variants filePath (getJsonEntries parsed), c')

/-- Field scan of one entry in `lookupInBib`, fields in parse order. -/
def lookupBibFields (home : String) (e : BibEntry) (filePath : String)
    (variants : List String) : List (String × String) →
    Option BibliographyBibMatch
  | [] => none
  | (k, v) :: tl =>
    if matchStringAgainstVariants v variants then
      some { entry := e, rawEntry := e.rawEntry, matchType := "path"
             matchValue := v, descriptor := buildBibDescriptor home e
             metadataFile := some filePath, matchedField := some k }
    else lookupBibFields home e filePath variants tl

/-- Entry scan of `lookupInBib`. -/
def lookupInBibPure (home : String) (variants : List String)
    (filePath : String) : List BibEntry → Option BibliographyBibMatch
  | [] => none
  | e :: rest =>
    match lookupBibFields home e filePath variants e.fields with
    | some m => some m
    | none => lookupInBibPure home variants filePath rest

/-- Embedding of `lookupInBib`. -/
def lookupInBib (env : Env) (c : Cache) (finderPath filePath : String) :
    Option BibliographyBibMatch × Cache :=
  let variants := generatePathVariants env.cwd finderPath
  match readBibCache env c filePath with
  | (none, c') => (none, c')
  | (some entries, c') =>
    (lookupInBibPure env.home variants filePath entries, c')

/-- Entry scan of `lookupCitationInJson`: the descriptor is built before
the match test, and the first entry with a matching top-level
citation-key field wins. -/
def lookupCitationInJsonPure (home : String) (citationKey filePath : String) :
    List Json → Option BibliographyJsonMatch
  | [] => none
  | e :: rest =>
    if jsObjectLike e then
      let descriptor := buildJsonDescriptor home e
      match findMatchingTopLevelField (jsEntriesOf e)
          ["citationKey", "citationkey", "id"] citationKey with
      | some mi =>
        some { item := e, matchType := "citationKey", matchValue := mi.value
               propertyPath := mi.propertyPath, descriptor := descriptor
               metadataFile := some filePath, matchedField := some mi.field }
      | none => lookupCitationInJsonPure home citationKey filePath rest
    else lookupCitationInJsonPure home citationKey filePath rest

/-- Embedding of `lookupCitationInJson`. -/
def lookupCitationInJson (env : Env) (c : Cache) (citationKey filePath : String) :
    Option BibliographyJsonMatch × Cache :=
  match readJsonCache env c filePath with
  | (none, c') => (none, c')
  | (some parsed, c') =>
    if jsFalsy parsed then (none, c')
    else (lookupCitationInJsonPure env.home citationKey filePath
            (getJsonEntries parsed), c')

/-- The alternate-field scan of `lookupCitationInBib`
(`["citationkey", "zotero_id", "id"]`). -/
def findCandidateField (e : BibEntry) (target : String) :
    List String → Option (String × String)
  | [] => none
  | fk :: rest =>
    match assocFind e.fields fk with
    | some fv =>
      if normalizeKey fv = target then some (fk, fv)
      else findCandidateField e target rest
    | none => findCandidateField e target rest

/-- Per-entry test of `lookupCitationInBib`: first the descriptor's (truthy)
citation key against the normalized target, then the alternate fields. -/
def lookupCitationEntry (home filePath target : String) (e : BibEntry) :
    Option BibliographyBibMatch :=
  let descriptor := buildBibDescriptor home e
  let keyHit :=
    match descriptor.citationKey with
    | some ck => if ck ≠ "" && normalizeKey ck = target then some ck else none
    | none => none
  match keyHit with
  | some ck =>
    some { entry := e, rawEntry := e.rawEntry, matchType := "citationKey"
           matchValue := ck, descriptor := descriptor
           metadataFile := some filePath, matchedField := some "key" }
  | none =>
    match findCandidateField e target ["citationkey", "zotero_id", "id"] with
    | some fv =>
      some { entry := e, rawEntry := e.rawEntry, matchType := "citationKey"
             matchValue := fv.2, descriptor := descriptor
             metadataFile := some filePath, matchedField := some fv.1 }
    | none => none

/-- Entry scan of `lookupCitationInBib` over the normalized target. -/
def lookupCitationInBibGo (home filePath target : String) :
    List BibEntry → Option BibliographyBibMatch
  | [] => none
  | e :: rest =>
    match lookupCitationEntry home filePath target e with
    | some m => some m
    | none => lookupCitationInBibGo home filePath target rest

/-- The pure part of `lookupCitationInBib`: normalize the queried key once,
then scan the entries. -/
def lookupCitationInBibPure (home : String) (citationKey filePath : String)
    (entries : List BibEntry) : Option BibliographyBibMatch :=
  lookupCitationInBibGo home filePath (normalizeKey citationKey) entries

/-- Embedding of `lookupCitationInBib`. -/
def lookupCitationInBib (env : Env) (c : Cache) (citationKey filePath : String) :
    Option BibliographyBibMatch × Cache :=
  match readBibCache env c filePath with
  | (none, c') => (none, c')
  | (some entries, c') =>
    (lookupCitationInBibPure env.home citationKey filePath entries, c')

/-- The options record of the two public lookups. -/
structure BibliographyLookupOptions where
  jsonPath : Option String := none
  bibPath : Option String := none

/-- JS truthiness filter on an optional string (the `if (jsonPath)` guard:
an empty-string path is not configured). -/
def truthyStr : Option String → Option String
  | some s => if s = "" then none else some s
  | none => none

/-- Resolution `options.jsonPath ?? process.env.BIBLIOGRAPHY_JSON ?? null`, combined
with the truthiness guard of the `if`. -/
def resolvedJsonPath (env : Env) (options : BibliographyLookupOptions) :
    Option String :=
  truthyStr (options.jsonPath.orElse (fun _ => env.envJson))

/-- Resolution `options.bibPath ?? process.env.BIBLIOGRAPHY_BIB ?? null`, combined
with the truthiness guard of the `if`. -/
def resolvedBibPath (env : Env) (options : BibliographyLookupOptions) :
    Option String :=
  truthyStr (options.bibPath.orElse (fun _ => env.envBib))

/-- The aggregated configuration-missing message of the path lookup. -/
def noConfigMessagePath : String :=
  "No Bibliography metadata files configured. Provide BIBLIOGRAPHY_JSON or BIBLIOGRAPHY_BIB, or call lookupBibliographyMetadataByPath with explicit paths."

/-- The aggregated configuration-missing message of the citation-key lookup. -/
def noConfigMessageKey : String :=
  "No Bibliography metadata files configured. Provide BIBLIOGRAPHY_JSON or BIBLIOGRAPHY_BIB, or call lookupBibliographyMetadataByCitationKey with explicit paths."

/-- Embedding of `lookupBibliographyMetadataByPath`: structured export
first (errors recorded per source), early return on a match, text export
second, and a single configuration error when neither source was
attempted. -/
def lookupBibliographyMetadataByPath (env : Env) (c : Cache)
    (finderPath : String) (options : BibliographyLookupOptions) :
    LookupResult × Cache :=
  let jsonPath := resolvedJsonPath env options
  let bibPath := resolvedBibPath env options
  let attempted := jsonPath.isSome || bibPath.isSome
  let stage1 : Option BibliographyJsonMatch × List String × Cache :=
    match jsonPath with
    | none => (none, [], c)
    | some jp =>
      if env.access jp then
        match lookupInJson env c finderPath jp with
        | (some m, c') => (some m, [], c')
        | (none, c') =>
          (none, ["No matching entry found in JSON metadata at " ++ jp], c')
      else (none, ["JSON metadata file not found at " ++ jp], c)
  match stage1 with
  | (some m, _, c₁) => (.jsonMatch m, c₁)
  | (none, errs1, c₁) =>
    let stage2 : Option BibliographyBibMatch × List String × Cache :=
      match bibPath with
      | none => (none, [], c₁)
      | some bp =>
        if env.access bp then
          match lookupInBib env c₁ finderPath bp with
          | (some m, c') => (some m, [], c')
          | (none, c') =>
            (none, ["No matching entry found in BibTeX metadata at " ++ bp], c')
        else (none, ["BibTeX metadata file not found at " ++ bp], c₁)
    match stage2 with
    | (some m, _, c₂) => (.bibMatch m, c₂)
    | (none, errs2, c₂) =>
      if attempted then (.failure (errs1 ++ errs2), c₂)
      else (.failure [noConfigMessagePath], c₂)

/-- Embedding of `lookupBibliographyMetadataByCitationKey`: immediate
rejection of a blank key before any file access, then the same two-source
scan with citation-key errors. -/
def lookupBibliographyMetadataByCitationKey (env : Env) (c : Cache)
    (citationKey : String) (options : BibliographyLookupOptions) :
    LookupResult × Cache :=
  let trimmedKey := jsTrim citationKey
  if trimmedKey = "" then (.failure ["Citation key must not be empty"], c)
  else
    let jsonPath := resolvedJsonPath env options
    let bibPath := resolvedBibPath env options
    let attempted := jsonPath.isSome || bibPath.isSome
    let sq := String.mk [squote]
    let stage1 : Option BibliographyJsonMatch × List String × Cache :=
      match jsonPath with
      | none => (none, [], c)
      | some jp =>
        if env.access jp then
          match lookupCitationInJson env c trimmedKey jp with
          | (some m, c') => (some m, [], c')
          | (none, c') =>
            (none, ["No entry with citation key " ++ sq ++ trimmedKey ++ sq ++
                    " in JSON metadata at " ++ jp], c')
        else (none, ["JSON metadata file not found at " ++ jp], c)
    match stage1 with
    | (some m, _, c₁) => (.jsonMatch m, c₁)
    | (none, errs1, c₁) =>
      let stage2 : Option BibliographyBibMatch × List String × Cache :=
        match bibPath with
        | none => (none, [], c₁)
        | some bp =>
          if env.access bp then
            match lookupCitationInBib env c₁ trimmedKey bp with
            | (some m, c') => (some m, [], c')
            | (none, c') =>
              (none, ["No entry with citation key " ++ sq ++ trimmedKey ++ sq ++
                      " in BibTeX metadata at " ++ bp], c')
          else (none, ["BibTeX metadata file not found at " ++ bp], c₁)
      match stage2 with
      | (some m, _, c₂) => (.bibMatch m, c₂)
      | (none, errs2, c₂) =>
        if attempted then (.failure (errs1 ++ errs2), c₂)
        else (.failure [noConfigMessageKey], c₂)

/-- Embedding of `clearBibliographyMetadataCache`: clear both maps. -/
def clearBibliographyMetadataCache (_ : Cache) : Cache :=
  { json := [], bib := [] }

/-! UTF-16 code-unit model.  JS strings are sequences of UTF-16 code
units and may contain unpaired surrogates, which a Lean `String` cannot
represent; the following models are used where that difference matters. -/

/-- Is `n` a high (leading) surrogate code unit? -/
def isLeadSurrogate (n : Nat) : Bool := 0xD800 ≤ n && n ≤ 0xDBFF

/-- Is `n` a low (trailing) surrogate code unit? -/
def isTrailSurrogate (n : Nat) : Bool := 0xDC00 ≤ n && n ≤ 0xDFFF

/-- Percent-escapes of a byte list as code units. -/
def cuPctBytes (bs : List Nat) : List Nat := (pctBytes bs).map Char.toNat

/-- Model of ECMAScript `encodeURI` on UTF-16 code-unit sequences, after
the abstract operation `Encode`: unescaped code units are copied, paired
surrogates are combined and UTF-8 percent-encoded, and an unpaired
surrogate throws `URIError` (`none`). -/
def cuEncodeURI : List Nat → Option (List Nat)
  | [] => some []
  | c :: tl =>
    if c < 0x80 && encodeURIUnescaped (Char.ofNat c) then
      (cuEncodeURI tl).map (fun r => c :: r)
    else if isTrailSurrogate c then none
    else if isLeadSurrogate c then
      match tl with
      | t :: tl2 =>
        if isTrailSurrogate t then
          let cp := 0x10000 + (c - 0xD800) * 0x400 + (t - 0xDC00)
          (cuEncodeURI tl2).map (fun r => cuPctBytes (utf8Bytes cp) ++ r)
        else none
      | [] => none
    else (cuEncodeURI tl).map (fun r => cuPctBytes (utf8Bytes c) ++ r)

/-- The backslash normalization `finderPath.replace(/\\/g, "/")` on code
units (infallible). -/
def cuReplaceBackslash (s : List Nat) : List Nat :=
  s.map (fun c => if c = 92 then 47 else c)

/-- Does `generatePathVariants` throw on this UTF-16 finder path?  The JS
function first normalizes backslashes (infallible, line 103) and adds the
result to the set (infallible), then calls `encodeURI(normalized)` at line
112 outside any try/catch; `none` from `cuEncodeURI` is that call throwing
`URIError`.  The exception propagates out of `generatePathVariants` and out
of `lookupBibliographyMetadataByPath`, which reaches it through
`lookupInJson`/`lookupInBib` (whenever a configured export file exists)
with no handler on the way. -/
def cuGeneratePathVariantsThrows (finderPath : List Nat) : Bool :=
  (cuEncodeURI (cuReplaceBackslash finderPath)).isNone

/-- Cache extension order: every binding of `c` is still present, with the
same value, in `c'`.  Lookups only ever extend the caches, so entries
persist until the explicit clear. -/
def CacheLE (c c' : Cache) : Prop :=
  (∀ k v, assocFind c.json k = some v → assocFind c'.json k = some v) ∧
  (∀ k v, assocFind c.bib k = some v → assocFind c'.bib k = some v)

/-- Companion definition following the claim's words for C10: attachment
collection from a text entry where, besides the `file` branch, only the
all-lowercase hint keys `path`, `uri`, `url` are consulted (`localPath`
and `relativePath` removed from the hint set; `file` is already consumed
by its own branch). -/
def collectBibFoldLowerHints (home : String) (acc : List String) :
    List (String × String) → List String
  | [] => acc
  | (k, v) :: tl =>
    if jsToLower k = "file" then
      collectBibFoldLowerHints home
        ((parseBibFileField home v).foldl insertUnique acc) tl
    else if ["path", "uri", "url"].contains k &&
            isLikelyLocalAttachment v (some k) then
      match normalizeAttachmentPath home v with
      | some n =>
        collectBibFoldLowerHints home (if n = "" then acc else insertUnique acc n) tl
      | none => collectBibFoldLowerHints home acc tl
    else collectBibFoldLowerHints home acc tl

/-- Wrapper of `collectBibFoldLowerHints` over an entry's fields. -/
def collectBibAttachmentPathsLowerHints (home : String) (e : BibEntry) :
    List String :=
  collectBibFoldLowerHints home [] e.fields

/-- A sample structured-export value used by the witnesses: one entry with
a citation key and one attachment. -/
def sampleJson : Json :=
  .obj [("citationKey", .str "k1"),
        ("attachments", .arr [.obj [("localPath", .str "/a/b.pdf")]])]

/-- The raw text-export content used by the witnesses. -/
def sampleBibRaw : String :=
  "@article\x7bsmith2024deep, title = \x7bT\x7d, file = \x7bapplication/pdf:/a/b.pdf:PDF\x7d\x7d"

/-- A sample environment used by the witnesses: a structured export at
`/j` and a text export at `/b`, nothing else readable, no environment
variables. -/
def sampleEnv : Env :=
  { envJson := none
    envBib := none
    access := fun p => p = "/j" || p = "/b"
    readFile := fun p =>
      if p = "/j" then some "JRAW"
      else if p = "/b" then some sampleBibRaw
      else none
    parseJson := fun r => if r = "JRAW" then some sampleJson else none
    home := "/h"
    cwd := "/w" }

/-- A structured-export value sharing its citation key with the sample
text-export entry, so both sources match the same citation-key query. -/
def sampleJson2 : Json :=
  .obj [("citationKey", .str "smith2024deep"),
        ("attachments", .arr [.obj [("localPath", .str "/a/b.pdf")]])]

/-- A second witness environment: like `sampleEnv` but its structured
export parses to `sampleJson2`, so the exports at `/j` and `/b` both
contain the citation key `smith2024deep` and the attachment `/a/b.pdf`. -/
def sampleEnv2 : Env :=
  { envJson := none
    envBib := none
    access := fun p => p = "/j" || p = "/b"
    readFile := fun p =>
      if p = "/j" then some "JRAW"
      else if p = "/b" then some sampleBibRaw
      else none
    parseJson := fun r => if r = "JRAW" then some sampleJson2 else none
    home := "/h"
    cwd := "/w" }

/-- An environment with no configured sources and no readable files. -/
def emptyEnv : Env :=
  { envJson := none, envBib := none, access := fun _ => false
    readFile := fun _ => none, parseJson := fun _ => none
    home := "/h", cwd := "/w" }

/-- The sample text-export entry as parsed from `sampleEnv`. -/
def sampleBibEntry : BibEntry :=
  { type := "article"
    key := "smith2024deep"
    fields := [("title", "T"), ("file", "application/pdf:/a/b.pdf:PDF")]
    rawEntry := "@article\x7bsmith2024deep, title = \x7bT\x7d, file = \x7bapplication/pdf:/a/b.pdf:PDF\x7d\x7d" }

/-- A text entry whose only fields were written as `localPath` and
`relativePath` in the source text; the parser stores them lowercased. -/
def sampleHintEntry : BibEntry :=
  { type := "article"
    key := "k1"
    fields := [("localpath", "/a/b.pdf"), ("relativepath", "/c/d.pdf")]
    rawEntry := "@article\x7bk1, localPath = \x7b/a/b.pdf\x7d, relativePath = \x7b/c/d.pdf\x7d\x7d" }

/-- The cache after the sample structured export has been read. -/
def sampleCacheJ : Cache := { json := [("/j", sampleJson)], bib := [] }

/-- The cache after both sample exports have been read. -/
def sampleCacheJB : Cache :=
  { json := [("/j", sampleJson)], bib := [("/b", [sampleBibEntry])] }

/-! Helper lemmas. -/

theorem dropWhile_idem (p : Char → Bool) (l : List Char) :
    (l.dropWhile p).dropWhile p = l.dropWhile p := by
  induction l with
  | nil => rfl
  | cons a tl ih =>
    by_cases h : p a
    · simp [List.dropWhile_cons, h, ih]
    · simp [List.dropWhile_cons, h]

theorem trimEndChars_idem (l : List Char) :
    trimEndChars (trimEndChars l) = trimEndChars l := by
  induction l with
  | nil => rfl
  | cons c tl ih =>
    rcases htl : trimEndChars tl with _ | ⟨d, r⟩
    · by_cases hc : jsWhitespaceChar c
      · simp [trimEndChars, htl, hc]
      · simp [trimEndChars, htl, hc]
    · rw [htl] at ih
      have hstep : trimEndChars (c :: tl) = c :: d :: r := by
        simp only [trimEndChars, htl]
      rw [hstep]
      show (match trimEndChars (d :: r) with
            | [] => if jsWhitespaceChar c = true then [] else [c]
            | e :: s => c :: e :: s) = c :: d :: r
      rw [ih]

theorem trimEndChars_head_cases (c : Char) (tl : List Char) :
    trimEndChars (c :: tl) = [] ∨ ∃ r, trimEndChars (c :: tl) = c :: r := by
  simp only [trimEndChars]
  rcases trimEndChars tl with _ | ⟨d, r⟩
  · by_cases hc : jsWhitespaceChar c
    · simp [hc]
    · simp [hc]
  · exact Or.inr ⟨d :: r, rfl⟩

theorem dropWhile_trimEndChars_dropWhile (p : Char → Bool) (l : List Char) :
    (trimEndChars (l.dropWhile p)).dropWhile p = trimEndChars (l.dropWhile p) := by
  rcases hdw : l.dropWhile p with _ | ⟨c, tl⟩
  · rfl
  · have hc : p c = false := by
      have := List.head?_dropWhile_not p l
      rw [hdw] at this
      simpa using this
    rcases trimEndChars_head_cases c tl with h | ⟨r, h⟩
    · rw [h]; rfl
    · rw [h, List.dropWhile_cons, hc]
      exact if_neg (by simp)

theorem trimChars_idem (l : List Char) : trimChars (trimChars l) = trimChars l := by
  unfold trimChars
  rw [dropWhile_trimEndChars_dropWhile, trimEndChars_idem]

theorem jsTrim_idem (s : String) : jsTrim (jsTrim s) = jsTrim s := by
  unfold jsTrim
  rw [show (String.mk (trimChars s.toList)).toList = trimChars s.toList from rfl,
    trimChars_idem]

theorem normalizeComparisonString_trim (v : String) :
    normalizeComparisonString (jsTrim v) = normalizeComparisonString v := by
  unfold normalizeComparisonString
  rw [jsTrim_idem]

theorem trimChars_of_all_whitespace (l : List Char)
    (h : l.all jsWhitespaceChar = true) : trimChars l = [] := by
  unfold trimChars
  have h2 : l.dropWhile jsWhitespaceChar = [] := by
    rw [List.dropWhile_eq_nil_iff]
    intro x hx
    exact List.all_eq_true.mp h x hx
  rw [h2]
  rfl

theorem jsTrim_empty_of_all_whitespace (s : String)
    (h : s.toList.all jsWhitespaceChar = true) : jsTrim s = "" := by
  unfold jsTrim
  rw [trimChars_of_all_whitespace s.toList h]

theorem normalizeComparisonString_of_trim_empty (v : String)
    (h : jsTrim v = "") : normalizeComparisonString v = "" := by
  unfold normalizeComparisonString
  rw [h]
  rfl

theorem mem_insertUnique_of_mem (acc : List String) (y x : String)
    (h : x ∈ acc) : x ∈ insertUnique acc y := by
  unfold insertUnique
  by_cases hy : y ∈ acc <;> simp [hy, h]

theorem mem_foldl_insertUnique_of_mem_acc (l : List String) :
    ∀ acc x, x ∈ acc → x ∈ l.foldl insertUnique acc := by
  induction l with
  | nil => intro acc x h; exact h
  | cons y tl ih =>
    intro acc x h
    exact ih (insertUnique acc y) x (mem_insertUnique_of_mem acc y x h)

theorem mem_foldl_insertUnique_of_mem (l : List String) :
    ∀ acc x, x ∈ l → x ∈ l.foldl insertUnique acc := by
  induction l with
  | nil => intro acc x h; cases h
  | cons y tl ih =>
    intro acc x h
    rcases List.mem_cons.mp h with rfl | hmem
    · have hx : x ∈ insertUnique acc x := by
        unfold insertUnique
        by_cases hy : x ∈ acc <;> simp [hy]
      exact mem_foldl_insertUnique_of_mem_acc tl (insertUnique acc x) x hx
    · exact ih (insertUnique acc y) x hmem

theorem mem_foldl_insertUnique (l : List String) :
    ∀ acc x, x ∈ l.foldl insertUnique acc → x ∈ acc ∨ x ∈ l := by
  induction l with
  | nil => intro acc x h; exact Or.inl h
  | cons y tl ih =>
    intro acc x h
    rcases ih (insertUnique acc y) x h with hacc | htl
    · unfold insertUnique at hacc
      by_cases hy : y ∈ acc
      · rw [if_pos hy] at hacc
        exact Or.inl hacc
      · rw [if_neg hy] at hacc
        rcases List.mem_append.mp hacc with h1 | h1
        · exact Or.inl h1
        · simp at h1
          exact Or.inr (by simp [h1])
    · exact Or.inr (List.mem_cons_of_mem y htl)

theorem foldl_insertUnique_nodup (l : List String) :
    ∀ acc, acc.Nodup → (l.foldl insertUnique acc).Nodup := by
  induction l with
  | nil => intro acc h; exact h
  | cons y tl ih =>
    intro acc h
    apply ih
    unfold insertUnique
    by_cases hy : y ∈ acc
    · simpa [hy] using h
    · rw [if_neg hy]
      refine List.Nodup.append h (List.nodup_singleton y) ?_
      intro a ha hay
      simp at hay
      exact hy (hay ▸ ha)

theorem foldl_insertUnique_length (l : List String) :
    ∀ acc, (l.foldl insertUnique acc).length ≤ acc.length + l.length := by
  induction l with
  | nil => intro acc; simp
  | cons y tl ih =>
    intro acc
    have h1 : (insertUnique acc y).length ≤ acc.length + 1 := by
      unfold insertUnique
      by_cases hy : y ∈ acc <;> simp [hy]
    calc (List.foldl insertUnique (insertUnique acc y) tl).length
        ≤ (insertUnique acc y).length + tl.length := ih (insertUnique acc y)
      _ ≤ acc.length + 1 + tl.length := by omega
      _ = acc.length + (y :: tl).length := by simp; omega

theorem rawPathVariants_length (cwd p : String) :
    1 ≤ (rawPathVariants cwd p).length ∧ (rawPathVariants cwd p).length ≤ 10 := by
  unfold rawPathVariants
  by_cases h1 : jsStartsWith (jsReplaceChar p '\\' "/") "/" = true <;>
    by_cases h2 : jsStartsWith (encodeURI (jsReplaceChar p '\\' "/")) "/" = true <;>
      simp [h1, h2]

theorem findMatchingTopLevelField_norm (source : List (String × Json))
    (q k : String) (h : normalizeKey q = normalizeKey k) :
    ∀ keys, findMatchingTopLevelField source keys q =
      findMatchingTopLevelField source keys k := by
  intro keys
  induction keys with
  | nil => rfl
  | cons k0 ks ih =>
    rcases hg : jsGet source k0 with _ | v
    · simp [findMatchingTopLevelField, hg, ih]
    · cases v <;> simp [findMatchingTopLevelField, hg, ih, h]

theorem lookupCitationEntry_of_key_eq (home fp k : String) (e : BibEntry)
    (hkne : k ≠ "") (hkey : e.key = k) :
    (lookupCitationEntry home fp (normalizeKey k) e).isSome = true := by
  unfold lookupCitationEntry
  simp only [buildBibDescriptor, hkey]
  simp [hkne]

theorem lookupCitationInBibGo_isSome (home fp k : String) (hkne : k ≠ "") :
    ∀ entries : List BibEntry, (∃ e ∈ entries, e.key = k) →
      (lookupCitationInBibGo home fp (normalizeKey k) entries).isSome = true := by
  intro entries
  induction entries with
  | nil => rintro ⟨e, he, _⟩; cases he
  | cons e rest ih =>
    rintro ⟨e', he', hkey⟩
    unfold lookupCitationInBibGo
    rcases hle : lookupCitationEntry home fp (normalizeKey k) e with _ | m
    · rcases List.mem_cons.mp he' with rfl | hmem
      · have := lookupCitationEntry_of_key_eq home fp k e' hkne hkey
        rw [hle] at this
        cases this
      · simp [ih ⟨e', hmem, hkey⟩]
    · simp

theorem assocFind_assocSet_of_none {α : Type} (l : List (String × α))
    (k : String) (v : α) (hk : assocFind l k = none) :
    ∀ k' v', assocFind l k' = some v' → assocFind (assocSet l k v) k' = some v' := by
  induction l with
  | nil => intro k' v' h; simp [assocFind] at h
  | cons kv tl ih =>
    intro k' v' h
    obtain ⟨k0, v0⟩ := kv
    by_cases h0 : k0 = k
    · exfalso
      simp [assocFind, h0] at hk
    · have hk' : assocFind tl k = none := by
        simpa [assocFind, h0] using hk
      simp only [assocSet, if_neg h0]
      by_cases h1 : k0 = k'
      · simp only [assocFind, if_pos h1] at h ⊢
        exact h
      · simp only [assocFind, if_neg h1] at h ⊢
        exact ih hk' k' v' h

theorem cacheLE_refl (c : Cache) : CacheLE c c :=
  ⟨fun _ _ h => h, fun _ _ h => h⟩

theorem cacheLE_trans {a b c : Cache} (h1 : CacheLE a b) (h2 : CacheLE b c) :
    CacheLE a c :=
  ⟨fun k v h => h2.1 k v (h1.1 k v h), fun k v h => h2.2 k v (h1.2 k v h)⟩

theorem readJsonCache_le (env : Env) (c : Cache) (p : String) :
    CacheLE c (readJsonCache env c p).2 := by
  rcases hf : assocFind c.json p with _ | v
  · rcases hr : env.readFile p with _ | raw
    · simp only [readJsonCache, hf, hr]
      exact cacheLE_refl c
    · rcases hp : env.parseJson raw with _ | parsed
      · simp only [readJsonCache, hf, hr, hp]
        exact cacheLE_refl c
      · simp only [readJsonCache, hf, hr, hp]
        exact ⟨fun k v h => assocFind_assocSet_of_none c.json p parsed hf k v h,
               fun _ _ h => h⟩
  · simp only [readJsonCache, hf]
    exact cacheLE_refl c

theorem readBibCache_le (env : Env) (c : Cache) (p : String) :
    CacheLE c (readBibCache env c p).2 := by
  rcases hf : assocFind c.bib p with _ | v
  · rcases hr : env.readFile p with _ | content
    · simp only [readBibCache, hf, hr]
      exact cacheLE_refl c
    · simp only [readBibCache, hf, hr]
      exact ⟨fun _ _ h => h,
             fun k v h =>
               assocFind_assocSet_of_none c.bib p (parseBibContent content) hf k v h⟩
  · simp only [readBibCache, hf]
    exact cacheLE_refl c

theorem lookupInJson_cache (env : Env) (c : Cache) (fp p : String) :
    (lookupInJson env c fp p).2 = (readJsonCache env c p).2 := by
  unfold lookupInJson
  rcases hr : readJsonCache env c p with ⟨r, c'⟩
  rcases r with _ | parsed
  · rfl
  · by_cases hf : jsFalsy parsed = true <;> simp [hf]

theorem lookupInBib_cache (env : Env) (c : Cache) (fp p : String) :
    (lookupInBib env c fp p).2 = (readBibCache env c p).2 := by
  unfold lookupInBib
  rcases hr : readBibCache env c p with ⟨r, c'⟩
  rcases r with _ | entries <;> rfl

theorem lookupCitationInJson_cache (env : Env) (c : Cache) (k p : String) :
    (lookupCitationInJson env c k p).2 = (readJsonCache env c p).2 := by
  unfold lookupCitationInJson
  rcases hr : readJsonCache env c p with ⟨r, c'⟩
  rcases r with _ | parsed
  · rfl
  · by_cases hf : jsFalsy parsed = true <;> simp [hf]

theorem lookupCitationInBib_cache (env : Env) (c : Cache) (k p : String) :
    (lookupCitationInBib env c k p).2 = (readBibCache env c p).2 := by
  unfold lookupCitationInBib
  rcases hr : readBibCache env c p with ⟨r, c'⟩
  rcases r with _ | entries <;> rfl

theorem lookupInJson_le (env : Env) (c : Cache) (fp p : String) :
    CacheLE c (lookupInJson env c fp p).2 := by
  rw [lookupInJson_cache]
  exact readJsonCache_le env c p

theorem lookupInBib_le (env : Env) (c : Cache) (fp p : String) :
    CacheLE c (lookupInBib env c fp p).2 := by
  rw [lookupInBib_cache]
  exact readBibCache_le env c p

theorem lookupCitationInJson_le (env : Env) (c : Cache) (k p : String) :
    CacheLE c (lookupCitationInJson env c k p).2 := by
  rw [lookupCitationInJson_cache]
  exact readJsonCache_le env c p

theorem lookupCitationInBib_le (env : Env) (c : Cache) (k p : String) :
    CacheLE c (lookupCitationInBib env c k p).2 := by
  rw [lookupCitationInBib_cache]
  exact readBibCache_le env c p

theorem lookupByPath_le (env : Env) (c : Cache) (fp : String)
    (opts : BibliographyLookupOptions) :
    CacheLE c (lookupBibliographyMetadataByPath env c fp opts).2 := by
  unfold lookupBibliographyMetadataByPath
  rcases hj : resolvedJsonPath env opts with _ | jp <;>
    rcases hb : resolvedBibPath env opts with _ | bp
  · exact cacheLE_refl c
  · by_cases hab : env.access bp = true
    · rcases hlb : lookupInBib env c fp bp with ⟨r2, c₂⟩
      have h2 : CacheLE c c₂ := by
        have := lookupInBib_le env c fp bp
        rwa [hlb] at this
      rcases r2 with _ | m <;> simp [hab, hlb, h2]
    · simp only [Bool.not_eq_true] at hab
      simp [hab]
      exact cacheLE_refl c
  · by_cases haj : env.access jp = true
    · rcases hljn : lookupInJson env c fp jp with ⟨r1, c₁⟩
      have h1 : CacheLE c c₁ := by
        have := lookupInJson_le env c fp jp
        rwa [hljn] at this
      rcases r1 with _ | m <;> simp [haj, hljn, h1]
    · simp only [Bool.not_eq_true] at haj
      simp [haj]
      exact cacheLE_refl c
  · by_cases haj : env.access jp = true
    · rcases hljn : lookupInJson env c fp jp with ⟨r1, c₁⟩
      have h1 : CacheLE c c₁ := by
        have := lookupInJson_le env c fp jp
        rwa [hljn] at this
      rcases r1 with _ | m
      · by_cases hab : env.access bp = true
        · rcases hlb : lookupInBib env c₁ fp bp with ⟨r2, c₂⟩
          have h2 : CacheLE c₁ c₂ := by
            have := lookupInBib_le env c₁ fp bp
            rwa [hlb] at this
          rcases r2 with _ | m <;>
            simp [haj, hab, hljn, hlb, cacheLE_trans h1 h2]
        · simp only [Bool.not_eq_true] at hab
          simp [haj, hab, hljn, h1]
      · simp [haj, hljn, h1]
    · simp only [Bool.not_eq_true] at haj
      by_cases hab : env.access bp = true
      · rcases hlb : lookupInBib env c fp bp with ⟨r2, c₂⟩
        have h2 : CacheLE c c₂ := by
          have := lookupInBib_le env c fp bp
          rwa [hlb] at this
        rcases r2 with _ | m <;> simp [haj, hab, hlb, h2]
      · simp only [Bool.not_eq_true] at hab
        simp [haj, hab]
        exact cacheLE_refl c

theorem lookupByKey_le (env : Env) (c : Cache) (q : String)
    (opts : BibliographyLookupOptions) :
    CacheLE c (lookupBibliographyMetadataByCitationKey env c q opts).2 := by
  unfold lookupBibliographyMetadataByCitationKey
  by_cases ht : jsTrim q = ""
  · simp [ht]
    exact cacheLE_refl c
  · rcases hj : resolvedJsonPath env opts with _ | jp <;>
      rcases hb : resolvedBibPath env opts with _ | bp
    · simp [ht]
      exact cacheLE_refl c
    · by_cases hab : env.access bp = true
      · rcases hlb : lookupCitationInBib env c (jsTrim q) bp with ⟨r2, c₂⟩
        have h2 : CacheLE c c₂ := by
          have := lookupCitationInBib_le env c (jsTrim q) bp
          rwa [hlb] at this
        rcases r2 with _ | m <;> simp [ht, hab, hlb, h2]
      · simp only [Bool.not_eq_true] at hab
        simp [ht, hab]
        exact cacheLE_refl c
    · by_cases haj : env.access jp = true
      · rcases hljn : lookupCitationInJson env c (jsTrim q) jp with ⟨r1, c₁⟩
        have h1 : CacheLE c c₁ := by
          have := lookupCitationInJson_le env c (jsTrim q) jp
          rwa [hljn] at this
        rcases r1 with _ | m <;> simp [ht, haj, hljn, h1]
      · simp only [Bool.not_eq_true] at haj
        simp [ht, haj]
        exact cacheLE_refl c
    · by_cases haj : env.access jp = true
      · rcases hljn : lookupCitationInJson env c (jsTrim q) jp with ⟨r1, c₁⟩
        have h1 : CacheLE c c₁ := by
          have := lookupCitationInJson_le env c (jsTrim q) jp
          rwa [hljn] at this
        rcases r1 with _ | m
        · by_cases hab : env.access bp = true
          · rcases hlb : lookupCitationInBib env c₁ (jsTrim q) bp with ⟨r2, c₂⟩
            have h2 : CacheLE c₁ c₂ := by
              have := lookupCitationInBib_le env c₁ (jsTrim q) bp
              rwa [hlb] at this
            rcases r2 with _ | m <;>
              simp [ht, haj, hab, hljn, hlb, cacheLE_trans h1 h2]
          · simp only [Bool.not_eq_true] at hab
            simp [ht, haj, hab, hljn, h1]
        · simp [ht, haj, hljn, h1]
      · simp only [Bool.not_eq_true] at haj
        by_cases hab : env.access bp = true
        · rcases hlb : lookupCitationInBib env c (jsTrim q) bp with ⟨r2, c₂⟩
          have h2 : CacheLE c c₂ := by
            have := lookupCitationInBib_le env c (jsTrim q) bp
            rwa [hlb] at this
          rcases r2 with _ | m <;> simp [ht, haj, hab, hlb, h2]
        · simp only [Bool.not_eq_true] at hab
          simp [ht, haj, hab]
          exact cacheLE_refl c

theorem substrList_nil (l : List Char) : substrList [] l = true := by
  cases l <;> simp [substrList, isPrefixList]

theorem jsIncludes_empty (s : String) : jsIncludes s "" = true :=
  substrList_nil s.toList

theorem matchStringAgainstVariants_of_mem_empty (value : String)
    (variants : List String) (h : "" ∈ variants) :
    matchStringAgainstVariants value variants = true := by
  unfold matchStringAgainstVariants
  apply List.any_eq_true.mpr
  exact ⟨"", h, by simp [jsIncludes_empty]⟩

theorem json_induction (P : Json → Prop) (hnull : P .null)
    (hbool : ∀ b, P (.bool b)) (hnum : ∀ n, P (.num n))
    (hstr : ∀ s, P (.str s))
    (harr : ∀ xs, (∀ x ∈ xs, P x) → P (.arr xs))
    (hobj : ∀ kvs, (∀ kv ∈ kvs, P kv.2) → P (.obj kvs)) : ∀ v, P v
  | .null => hnull
  | .bool b => hbool b
  | .num n => hnum n
  | .str s => hstr s
  | .arr xs => harr xs (fun x hx =>
      json_induction P hnull hbool hnum hstr harr hobj x)
  | .obj kvs => hobj kvs (fun kv hkv =>
      json_induction P hnull hbool hnum hstr harr hobj kv.2)
termination_by v => sizeOf v
decreasing_by
  · have h1 := List.sizeOf_lt_of_mem hx
    simp only [Json.arr.sizeOf_spec]
    omega
  · have h1 := List.sizeOf_lt_of_mem hkv
    have h2 : sizeOf kv.2 < sizeOf kv := by
      obtain ⟨a, b⟩ := kv
      simp
    simp only [Json.obj.sizeOf_spec]
    omega

theorem findPathArr_isSome_of (variants : List String) :
    ∀ (xs : List Json),
      (∀ x ∈ xs, ∀ pp, containsString x = true →
        (findPathInJsonValue x variants pp).isSome = true) →
      ∀ pp i, containsStringArr xs = true →
        (findPathInJsonArr xs variants pp i).isSome = true := by
  intro xs
  induction xs with
  | nil => intro _ pp i h; simp [containsStringArr] at h
  | cons x tl ih =>
    intro hall pp i h
    rcases hfv : findPathInJsonValue x variants
        (pp ++ ["[" ++ toString i ++ "]"]) with _ | r
    · have hx : containsString x = false := by
        cases hcx : containsString x
        · rfl
        · exfalso
          have := hall x (List.mem_cons_self x tl)
            (pp ++ ["[" ++ toString i ++ "]"]) hcx
          rw [hfv] at this
          simp at this
      have htl : containsStringArr tl = true := by
        have h' : (containsString x || containsStringArr tl) = true := by
          simpa [containsStringArr] using h
        simpa [hx] using h'
      have := ih (fun y hy => hall y (List.mem_cons_of_mem x hy)) pp (i + 1) htl
      simpa [findPathInJsonArr, hfv] using this
    · simp [findPathInJsonArr, hfv]

theorem findPathObj_isSome_of (variants : List String) :
    ∀ (kvs : List (String × Json)),
      (∀ kv ∈ kvs, ∀ pp, containsString kv.2 = true →
        (findPathInJsonValue kv.2 variants pp).isSome = true) →
      ∀ pp, containsStringObj kvs = true →
        (findPathInJsonObj kvs variants pp).isSome = true := by
  intro kvs
  induction kvs with
  | nil => intro _ pp h; simp [containsStringObj] at h
  | cons kv tl ih =>
    intro hall pp h
    obtain ⟨k, v⟩ := kv
    rcases hfv : findPathInJsonValue v variants (pp ++ [k]) with _ | r
    · have hx : containsString v = false := by
        cases hcx : containsString v
        · rfl
        · exfalso
          have := hall (k, v) (List.mem_cons_self (k, v) tl) (pp ++ [k]) hcx
          rw [hfv] at this
          simp at this
      have htl : containsStringObj tl = true := by
        have h' : (containsString v || containsStringObj tl) = true := by
          simpa [containsStringObj] using h
        simpa [hx] using h'
      have := ih (fun y hy => hall y (List.mem_cons_of_mem (k, v) hy)) pp htl
      simpa [findPathInJsonObj, hfv] using this
    · simp [findPathInJsonObj, hfv]

theorem findPathVal_isSome (variants : List String) (hv : "" ∈ variants) :
    ∀ (v : Json), containsString v = true → ∀ pp,
      (findPathInJsonValue v variants pp).isSome = true := by
  refine json_induction
    (P := fun v => containsString v = true → ∀ pp,
      (findPathInJsonValue v variants pp).isSome = true) ?_ ?_ ?_ ?_ ?_ ?_
  · intro h; simp [containsString] at h
  · intro b h; simp [containsString] at h
  · intro n h; simp [containsString] at h
  · intro s _ pp
    simp [findPathInJsonValue,
      matchStringAgainstVariants_of_mem_empty s variants hv]
  · intro xs hall h pp
    have harr : containsStringArr xs = true := by
      simpa [containsString] using h
    have := findPathArr_isSome_of variants xs
      (fun x hx pp' hc => hall x hx hc pp') pp 0 harr
    simpa [findPathInJsonValue] using this
  · intro kvs hall h pp
    have hobj : containsStringObj kvs = true := by
      simpa [containsString] using h
    have := findPathObj_isSome_of variants kvs
      (fun kv hkv pp' hc => hall kv hkv hc pp') pp hobj
    simpa [findPathInJsonValue] using this

theorem expandChars_id (target : Char) (rep : List Char) :
    ∀ l : List Char, (∀ c ∈ l, c ≠ target) → expandChars target rep l = l := by
  intro l
  induction l with
  | nil => intro _; rfl
  | cons c tl ih =>
    intro h
    have hc : c ≠ target := h c (by simp)
    simp [expandChars, hc, ih (fun c' hc' => h c' (by simp [hc']))]

theorem jsReplaceChar_id_of_all_ws (s : String)
    (h : s.toList.all jsWhitespaceChar = true) :
    jsReplaceChar s '\\' "/" = s := by
  unfold jsReplaceChar
  rw [expandChars_id '\\' "/".toList s.toList ?_]
  case _ => rfl
  case _ =>
    intro c hc he
    have hws := List.all_eq_true.mp h c hc
    rw [he] at hws
    exact absurd hws (by decide)

theorem charLower_idem (c : Char) : charLower (charLower c) = charLower c := by
  unfold charLower
  by_cases h1 : 'A' ≤ c
  · by_cases h2 : c ≤ 'Z'
    · have hA : (65 : Nat) ≤ c.toNat := h1
      have hZ : c.toNat ≤ 90 := h2
      have hv : (c.toNat + 32).isValidChar := by
        left
        omega
      have htn : (Char.ofNat (c.toNat + 32)).toNat = c.toNat + 32 := by
        unfold Char.ofNat
        rw [dif_pos hv]
        simp [Char.ofNatAux, Char.toNat, UInt32.toNat]
      have hno : ¬ (Char.ofNat (c.toNat + 32) ≤ 'Z') := by
        intro hcon
        have h3 : (Char.ofNat (c.toNat + 32)).toNat ≤ 90 := hcon
        rw [htn] at h3
        omega
      simp [h1, h2, hno]
    · simp [h1, h2]
  · simp [h1]

theorem jsToLower_idem (s : String) : jsToLower (jsToLower s) = jsToLower s := by
  unfold jsToLower
  rw [show (String.mk (s.toList.map charLower)).toList = s.toList.map charLower
    from rfl]
  rw [List.map_map]
  exact congrArg String.mk
    (List.map_congr_left (fun c _ => charLower_idem c))

theorem assocSet_keys_subset {α : Type} (k : String) (v : α) :
    ∀ (l : List (String × α)) (k' : String),
      k' ∈ (assocSet l k v).map Prod.fst → k' ∈ l.map Prod.fst ∨ k' = k := by
  intro l
  induction l with
  | nil =>
    intro k' h
    simp [assocSet] at h
    exact Or.inr h
  | cons kv tl ih =>
    intro k' h
    obtain ⟨k0, v0⟩ := kv
    by_cases h0 : k0 = k
    · rw [show assocSet ((k0, v0) :: tl) k v = (k0, v) :: tl by
        simp [assocSet, h0]] at h
      simp at h
      rcases h with h | h
      · exact Or.inl (by simp [h])
      · exact Or.inl (by simp [h])
    · rw [show assocSet ((k0, v0) :: tl) k v = (k0, v0) :: assocSet tl k v by
        simp [assocSet, h0]] at h
      simp at h
      rcases h with h | h
      · exact Or.inl (by simp [h])
      · rcases ih k' (by simpa using h) with h1 | h1
        · exact Or.inl (by simp; exact Or.inr (by simpa using h1))
        · exact Or.inr h1

theorem parseBibFieldsGo_keys_lower :
    ∀ (fuel : Nat) (l : List Char) (fields : List (String × String)),
      (∀ k ∈ fields.map Prod.fst, jsToLower k = k) →
      ∀ k ∈ (parseBibFieldsGo fields fuel l).map Prod.fst, jsToLower k = k := by
  intro fuel
  induction fuel with
  | zero => intro l fields h; exact h
  | succ n ih =>
    intro l fields h
    rcases hrest : List.dropWhile (fun c => jsWhitespaceChar c || decide (c = ','))
        l with _ | ⟨d, r⟩
    · have hstep : parseBibFieldsGo fields (n + 1) l = fields := by
        rw [parseBibFieldsGo, hrest]
      rw [hstep]
      exact h
    · by_cases hkey : List.takeWhile isBibKeyChar (d :: r) = []
      · have hstep : parseBibFieldsGo fields (n + 1) l =
            parseBibFieldsGo fields n (List.drop 1 (d :: r)) := by
          rw [parseBibFieldsGo, hrest]
          simp [hkey]
        rw [hstep]
        exact ih _ _ h
      · rcases hr1 : List.dropWhile jsWhitespaceChar
            (List.dropWhile isBibKeyChar (d :: r)) with _ | ⟨c1, tl1⟩
        · have hstep : parseBibFieldsGo fields (n + 1) l =
              parseBibFieldsGo fields n (List.drop 1 []) := by
            rw [parseBibFieldsGo, hrest]
            simp [hkey, hr1]
          rw [hstep]
          exact ih _ _ h
        · by_cases hc1 : c1 = '='
          · subst hc1
            have hstep : parseBibFieldsGo fields (n + 1) l =
                parseBibFieldsGo
                  (assocSet fields
                    (jsToLower (jsTrim
                      (String.mk (List.takeWhile isBibKeyChar (d :: r)))))
                    (parseBibValue tl1).1)
                  n (parseBibValue tl1).2 := by
              rw [parseBibFieldsGo, hrest]
              simp [hkey, hr1]
            rw [hstep]
            apply ih
            intro k hk
            rcases assocSet_keys_subset _ _ _ k hk with h1 | h1
            · exact h k h1
            · rw [h1]
              exact jsToLower_idem _
          · have hstep : parseBibFieldsGo fields (n + 1) l =
                parseBibFieldsGo fields n (List.drop 1 (c1 :: tl1)) := by
              rw [parseBibFieldsGo, hrest]
              simp [hkey, hr1, hc1]
            rw [hstep]
            exact ih _ _ h

theorem collectBibFold_lower (home : String) :
    ∀ (fields : List (String × String)) (acc : List String),
      (∀ k ∈ fields.map Prod.fst, jsToLower k = k) →
      collectBibFold home acc fields = collectBibFoldLowerHints home acc fields := by
  intro fields
  induction fields with
  | nil => intro acc _; rfl
  | cons kv tl ih =>
    intro acc hf
    obtain ⟨k, v⟩ := kv
    have hk : jsToLower k = k := hf k (by simp)
    have htl : ∀ k' ∈ tl.map Prod.fst, jsToLower k' = k' :=
      fun k' h => hf k' (by simp [h])
    by_cases hfile : jsToLower k = "file"
    · simp only [collectBibFold, collectBibFoldLowerHints, if_pos hfile]
      exact ih _ htl
    · have hkf : k ≠ "file" := fun he => hfile (by rw [he]; decide)
      have h1 : k ≠ "localPath" := fun he => by
        rw [he] at hk
        exact absurd hk (by decide)
      have h2 : k ≠ "relativePath" := fun he => by
        rw [he] at hk
        exact absurd hk (by decide)
      have hhint : (PATH_HINT_KEYS.contains k) =
          ((["path", "uri", "url"] : List String).contains k) := by
        simp [PATH_HINT_KEYS, List.contains, h1, h2, hkf]
      simp only [collectBibFold, collectBibFoldLowerHints, if_neg hfile, hhint]
      by_cases hc : ((["path", "uri", "url"] : List String).contains k &&
          isLikelyLocalAttachment v (some k)) = true
      · rw [if_pos hc, if_pos hc]
        rcases hn : normalizeAttachmentPath home v with _ | nv
        · exact ih _ htl
        · exact ih _ htl
      · rw [if_neg hc, if_neg hc]
        exact ih _ htl

/-! Claim theorems. -/

/-- C3: the spec claims both lookups never raise past their own boundary,
for every input string including ones not well-formed for URI encoding.
The code violates this: `generatePathVariants` calls `encodeURI` (line 112)
with no handler, and on the finder path consisting of the single unpaired
high surrogate U+D800 that builtin throws `URIError`, which propagates out
of `lookupBibliographyMetadataByPath` whenever a configured export file
exists.  This theorem evaluates the UTF-16 code-unit model at the failing
input.  The surrounding code (`normalizeComparisonString`, `decodeUriSafe`)
wraps comparable builtins in try/catch, so the spec states the evident
intent and the unguarded call is the slip. -/
theorem C3_lookup_can_throw :
    cuGeneratePathVariantsThrows [0xD800] = true ∧
    cuEncodeURI [0xD800] = none := ⟨rfl, rfl⟩

/-- C6 counterexample: the claim says `normalizeAttachmentPath` never
returns an empty string and returns null whenever the canonicalize/strip/
decode/expand pipeline produces the empty string; but on the input `":"`
the emptiness checks run before the colon strip, so the function returns
the empty string, not null. -/
theorem C6_counterexample :
    normalizeAttachmentPath "/h" ":" = some "" := rfl

/-- C6 amended: `normalizeAttachmentPath` returns null exactly when the
canonicalized value is empty; the emptiness is checked before the leading
colon is stripped (and before URL-decoding and home expansion), so an
input whose canonical form is `":"` yields the empty string rather than
null. -/
theorem C6_null_iff_canonical_empty (home v : String) :
    normalizeAttachmentPath home v = none ↔
      normalizeComparisonString v = "" := by
  unfold normalizeAttachmentPath
  by_cases ht : jsTrim v = ""
  · have h2 := normalizeComparisonString_of_trim_empty v ht
    simp [ht, h2]
  · by_cases hn : normalizeComparisonString v = ""
    · have hn' : normalizeComparisonString (jsTrim v) = "" := by
        rw [normalizeComparisonString_trim]; exact hn
      simp [ht, hn', hn]
    · have hn' : ¬ normalizeComparisonString (jsTrim v) = "" := by
        rw [normalizeComparisonString_trim]; exact hn
      simp [ht, hn', hn]

/-- C5 counterexample: the claim says the variant list is duplicate-free
after canonicalization and has between 6 and 12 members; on the absolute
path `/tmp/x` it has 4 members, with the file-URL variant canonicalizing
back to a duplicate of the first member (deduplication happens before
canonicalization, not after). -/
theorem C5_counterexample :
    generatePathVariants "/w" "/tmp/x" =
      ["/tmp/x", ":/tmp/x", ":/tmp/x:", "/tmp/x"] ∧
    ¬ (generatePathVariants "/w" "/tmp/x").Nodup ∧
    ¬ (6 ≤ (generatePathVariants "/w" "/tmp/x").length ∧
        (generatePathVariants "/w" "/tmp/x").length ≤ 12) := by
  have h : generatePathVariants "/w" "/tmp/x" =
      ["/tmp/x", ":/tmp/x", ":/tmp/x:", "/tmp/x"] := by rfl
  refine ⟨h, ?_, ?_⟩
  · rw [h]; decide
  · rw [h]; decide

/-- C7: a citation-key query whose key is empty or blank is rejected with
exactly the one validation error, before any file access (the result does
not depend on the environment at all), and the cache is returned
unchanged. -/
theorem C7_blank_key_rejected (env : Env) (c : Cache) (q : String)
    (opts : BibliographyLookupOptions) (hq : jsTrim q = "") :
    lookupBibliographyMetadataByCitationKey env c q opts =
      (LookupResult.failure ["Citation key must not be empty"], c) := by
  unfold lookupBibliographyMetadataByCitationKey
  rw [hq]
  simp

/-- C7 witness: the all-whitespace key `"   "` with the sample environment. -/
theorem C7_witness :
    lookupBibliographyMetadataByCitationKey sampleEnv emptyCache "   "
        { jsonPath := some "/j", bibPath := some "/b" } =
      (LookupResult.failure ["Citation key must not be empty"], emptyCache) :=
  C7_blank_key_rejected sampleEnv emptyCache "   "
    { jsonPath := some "/j", bibPath := some "/b" } rfl

/-- C4: citation-key matching is invariant under case changes and
surrounding whitespace of the query: for a stored (trimmed, non-empty)
citation key `k` and any query `q` whose trimmed lowercasing equals the
lowercasing of `k`, the text-export citation scan returns exactly what the
exact-key query returns, and it succeeds; and the structured-export
top-level field matcher cannot distinguish `q` from `k` either. -/
theorem C4_citation_key_case_insensitive (home fp k q : String)
    (entries : List BibEntry)
    (hk : jsTrim k = k) (hkne : k ≠ "")
    (hq : normalizeKey q = jsToLower k)
    (hmem : ∃ e ∈ entries, e.key = k) :
    lookupCitationInBibPure home q fp entries =
      lookupCitationInBibPure home k fp entries ∧
    (lookupCitationInBibPure home q fp entries).isSome = true ∧
    ∀ (source : List (String × Json)) (keys : List String),
      findMatchingTopLevelField source keys q =
        findMatchingTopLevelField source keys k := by
  have hnk : normalizeKey k = jsToLower k := by
    unfold normalizeKey; rw [hk]
  have hqq : normalizeKey q = normalizeKey k := by rw [hq, hnk]
  have heq : lookupCitationInBibPure home q fp entries =
      lookupCitationInBibPure home k fp entries := by
    unfold lookupCitationInBibPure
    rw [hqq]
  refine ⟨heq, ?_, fun source keys => findMatchingTopLevelField_norm source q k hqq keys⟩
  rw [heq]
  exact lookupCitationInBibGo_isSome home fp k hkne entries hmem

/-- C4 witness: the stored key `smith2024deep` queried as
`" Smith2024Deep "` against a one-entry text export. -/
theorem C4_witness :
    lookupCitationInBibPure "/h" " Smith2024Deep " "/b" [sampleBibEntry] =
      lookupCitationInBibPure "/h" "smith2024deep" "/b" [sampleBibEntry] ∧
    (lookupCitationInBibPure "/h" " Smith2024Deep " "/b" [sampleBibEntry]).isSome
      = true :=
  have h := C4_citation_key_case_insensitive "/h" "/b" "smith2024deep"
    " Smith2024Deep " [sampleBibEntry] rfl (by decide) rfl
    ⟨sampleBibEntry, List.mem_singleton.mpr rfl, rfl⟩
  ⟨h.1, h.2.1⟩

/-- C1: for both query kinds — by path and by citation key — when both
exports are configured and present and each contains a match for the same
query, the structured-export match is returned (the result is the
`jsonMatch` built from the structured export; in particular the text
export's match is never the result). -/
theorem C1_structured_precedence (env : Env) (c c₁ c₂ : Cache) (p q : String)
    (opts : BibliographyLookupOptions) (jp bp : String)
    (m mk : BibliographyJsonMatch)
    (hjp : resolvedJsonPath env opts = some jp)
    (hbp : resolvedBibPath env opts = some bp)
    (haj : env.access jp = true) (hab : env.access bp = true) :
    (lookupInJson env c p jp = (some m, c₁) →
      (∃ content, env.readFile bp = some content ∧
        (lookupInBibPure env.home (generatePathVariants env.cwd p) bp
          (parseBibContent content)).isSome = true) →
      lookupBibliographyMetadataByPath env c p opts =
        (LookupResult.jsonMatch m, c₁)) ∧
    (jsTrim q ≠ "" →
      lookupCitationInJson env c (jsTrim q) jp = (some mk, c₂) →
      (∃ content, env.readFile bp = some content ∧
        (lookupCitationInBibPure env.home (jsTrim q) bp
          (parseBibContent content)).isSome = true) →
      lookupBibliographyMetadataByCitationKey env c q opts =
        (LookupResult.jsonMatch mk, c₂)) := by
  constructor
  · intro hjson hbib
    unfold lookupBibliographyMetadataByPath
    rw [hjp, hbp]
    simp [haj, hjson]
  · intro hq hjson hbib
    unfold lookupBibliographyMetadataByCitationKey
    simp [hq, hjp, hbp, haj, hjson]

/-- C1 witness: in `sampleEnv2` the path `/a/b.pdf` is an attachment of
both exports' entries, and the citation key `smith2024deep` occurs in both
exports; both lookups return the structured-export match. -/
theorem C1_witness :
    (lookupBibliographyMetadataByPath sampleEnv2 emptyCache "/a/b.pdf"
        { jsonPath := some "/j", bibPath := some "/b" } =
      (LookupResult.jsonMatch
        { item := sampleJson2
          matchType := "path"
          matchValue := "/a/b.pdf"
          propertyPath := ["attachments", "[0]", "localPath"]
          descriptor :=
            { source := "json", citationKey := some "smith2024deep"
              bibliographyId := none, title := none
              attachmentPaths := ["/a/b.pdf"] }
          metadataFile := some "/j"
          matchedField := some "localPath" },
       { json := [("/j", sampleJson2)], bib := [] })) ∧
    (lookupBibliographyMetadataByCitationKey sampleEnv2 emptyCache
        "smith2024deep" { jsonPath := some "/j", bibPath := some "/b" } =
      (LookupResult.jsonMatch
        { item := sampleJson2
          matchType := "citationKey"
          matchValue := "smith2024deep"
          propertyPath := ["citationKey"]
          descriptor :=
            { source := "json", citationKey := some "smith2024deep"
              bibliographyId := none, title := none
              attachmentPaths := ["/a/b.pdf"] }
          metadataFile := some "/j"
          matchedField := some "citationKey" },
       { json := [("/j", sampleJson2)], bib := [] })) :=
  have h := C1_structured_precedence sampleEnv2 emptyCache
    { json := [("/j", sampleJson2)], bib := [] }
    { json := [("/j", sampleJson2)], bib := [] } "/a/b.pdf" "smith2024deep"
    { jsonPath := some "/j", bibPath := some "/b" } "/j" "/b" _ _
    rfl rfl rfl rfl
  ⟨h.1 rfl ⟨sampleBibRaw, rfl, rfl⟩,
   h.2 (by decide) rfl ⟨sampleBibRaw, rfl, rfl⟩⟩

/-- C2: error aggregation of both lookups.  (a) With neither source
configured, the result is a failure carrying exactly the one aggregated
configuration message.  (b) With both sources configured but both files
absent, the failure carries exactly two not-found errors, the
structured-source one first.  (c) With both configured and present but
neither containing a match, the failure carries exactly two no-match
errors (`No matching entry`/`No entry with citation key`),
structured-source first. -/
theorem C2_error_aggregation (env : Env) (c c₁ c₂ c₃ c₄ : Cache)
    (p q : String) (opts : BibliographyLookupOptions) (jp bp : String) :
    ((resolvedJsonPath env opts = none → resolvedBibPath env opts = none →
      lookupBibliographyMetadataByPath env c p opts =
        (LookupResult.failure [noConfigMessagePath], c) ∧
      (jsTrim q ≠ "" →
        lookupBibliographyMetadataByCitationKey env c q opts =
          (LookupResult.failure [noConfigMessageKey], c)))) ∧
    (resolvedJsonPath env opts = some jp → resolvedBibPath env opts = some bp →
      env.access jp = false → env.access bp = false →
      lookupBibliographyMetadataByPath env c p opts =
        (LookupResult.failure ["JSON metadata file not found at " ++ jp,
          "BibTeX metadata file not found at " ++ bp], c) ∧
      (jsTrim q ≠ "" →
        lookupBibliographyMetadataByCitationKey env c q opts =
          (LookupResult.failure ["JSON metadata file not found at " ++ jp,
            "BibTeX metadata file not found at " ++ bp], c))) ∧
    (resolvedJsonPath env opts = some jp → resolvedBibPath env opts = some bp →
      env.access jp = true → env.access bp = true →
      (lookupInJson env c p jp = (none, c₁) →
        lookupInBib env c₁ p bp = (none, c₂) →
        lookupBibliographyMetadataByPath env c p opts =
          (LookupResult.failure
            ["No matching entry found in JSON metadata at " ++ jp,
             "No matching entry found in BibTeX metadata at " ++ bp], c₂)) ∧
      (jsTrim q ≠ "" →
        lookupCitationInJson env c (jsTrim q) jp = (none, c₃) →
        lookupCitationInBib env c₃ (jsTrim q) bp = (none, c₄) →
        lookupBibliographyMetadataByCitationKey env c q opts =
          (LookupResult.failure
            ["No entry with citation key " ++ String.mk [squote] ++ jsTrim q ++
               String.mk [squote] ++ " in JSON metadata at " ++ jp,
             "No entry with citation key " ++ String.mk [squote] ++ jsTrim q ++
               String.mk [squote] ++ " in BibTeX metadata at " ++ bp], c₄))) := by
  refine ⟨?_, ?_, ?_⟩
  · intro hj hb
    constructor
    · unfold lookupBibliographyMetadataByPath
      rw [hj, hb]
      simp
    · intro hq
      unfold lookupBibliographyMetadataByCitationKey
      simp [hq, hj, hb]
  · intro hj hb haj hab
    constructor
    · unfold lookupBibliographyMetadataByPath
      rw [hj, hb]
      simp [haj, hab]
    · intro hq
      unfold lookupBibliographyMetadataByCitationKey
      simp [hq, hj, hb, haj, hab]
  · intro hj hb haj hab
    constructor
    · intro h1 h2
      unfold lookupBibliographyMetadataByPath
      rw [hj, hb]
      simp [haj, hab, h1, h2]
    · intro hq h1 h2
      unfold lookupBibliographyMetadataByCitationKey
      simp [hq, hj, hb, haj, hab, h1, h2]

/-- C2 witness: the three scenarios for both lookups on concrete
environments — nothing configured; `/nj`, `/nb` configured but absent;
`/j`, `/b` configured and present with a query matching nothing. -/
theorem C2_witness :
    (lookupBibliographyMetadataByPath emptyEnv emptyCache "/x.pdf" {} =
      (LookupResult.failure [noConfigMessagePath], emptyCache)) ∧
    (lookupBibliographyMetadataByCitationKey emptyEnv emptyCache "zzz" {} =
      (LookupResult.failure [noConfigMessageKey], emptyCache)) ∧
    (lookupBibliographyMetadataByPath sampleEnv emptyCache "/x.pdf"
        { jsonPath := some "/nj", bibPath := some "/nb" } =
      (LookupResult.failure ["JSON metadata file not found at /nj",
        "BibTeX metadata file not found at /nb"], emptyCache)) ∧
    (lookupBibliographyMetadataByCitationKey sampleEnv emptyCache "zzz"
        { jsonPath := some "/nj", bibPath := some "/nb" } =
      (LookupResult.failure ["JSON metadata file not found at /nj",
        "BibTeX metadata file not found at /nb"], emptyCache)) ∧
    (lookupBibliographyMetadataByPath sampleEnv emptyCache "/nope.pdf"
        { jsonPath := some "/j", bibPath := some "/b" } =
      (LookupResult.failure ["No matching entry found in JSON metadata at /j",
        "No matching entry found in BibTeX metadata at /b"], sampleCacheJB)) ∧
    (lookupBibliographyMetadataByCitationKey sampleEnv emptyCache "zzz"
        { jsonPath := some "/j", bibPath := some "/b" } =
      (LookupResult.failure
        ["No entry with citation key " ++ String.mk [squote] ++ "zzz" ++
           String.mk [squote] ++ " in JSON metadata at /j",
         "No entry with citation key " ++ String.mk [squote] ++ "zzz" ++
           String.mk [squote] ++ " in BibTeX metadata at /b"], sampleCacheJB)) := by
  refine ⟨?_, ?_, ?_, ?_, ?_, ?_⟩
  · exact ((C2_error_aggregation emptyEnv emptyCache emptyCache emptyCache
      emptyCache emptyCache "/x.pdf" "zzz" {} "" "").1 rfl rfl).1
  · exact ((C2_error_aggregation emptyEnv emptyCache emptyCache emptyCache
      emptyCache emptyCache "/x.pdf" "zzz" {} "" "").1 rfl rfl).2 (by decide)
  · exact ((C2_error_aggregation sampleEnv emptyCache emptyCache emptyCache
      emptyCache emptyCache "/x.pdf" "zzz"
      { jsonPath := some "/nj", bibPath := some "/nb" } "/nj" "/nb").2.1
      rfl rfl rfl rfl).1
  · exact ((C2_error_aggregation sampleEnv emptyCache emptyCache emptyCache
      emptyCache emptyCache "/x.pdf" "zzz"
      { jsonPath := some "/nj", bibPath := some "/nb" } "/nj" "/nb").2.1
      rfl rfl rfl rfl).2 (by decide)
  · exact ((C2_error_aggregation sampleEnv emptyCache sampleCacheJ sampleCacheJB
      sampleCacheJ sampleCacheJB "/nope.pdf" "zzz"
      { jsonPath := some "/j", bibPath := some "/b" } "/j" "/b").2.2
      rfl rfl rfl rfl).1 rfl rfl
  · exact ((C2_error_aggregation sampleEnv emptyCache sampleCacheJ sampleCacheJB
      sampleCacheJ sampleCacheJB "/nope.pdf" "zzz"
      { jsonPath := some "/j", bibPath := some "/b" } "/j" "/b").2.2
      rfl rfl rfl rfl).2 (by decide) rfl rfl

/-- C8: cache atomicity.  A failed read or parse of the structured export
leaves the cache untouched (so a subsequent call retries the filesystem);
a failed read of the text export likewise (its parsing is total); every
lookup only extends the caches, so a successful parse's entry persists,
with its value, across any number of lookups; and the explicit clear
operation empties both caches. -/
theorem C8_cache_atomicity (env : Env) (c : Cache) (p fp q : String)
    (opts : BibliographyLookupOptions) :
    ((env.readFile p).bind env.parseJson = none →
      (readJsonCache env c p).2 = c) ∧
    (env.readFile p = none → (readBibCache env c p).2 = c) ∧
    CacheLE c (lookupBibliographyMetadataByPath env c fp opts).2 ∧
    CacheLE c (lookupBibliographyMetadataByCitationKey env c q opts).2 ∧
    clearBibliographyMetadataCache c = { json := [], bib := [] } := by
  refine ⟨?_, ?_, lookupByPath_le env c fp opts, lookupByKey_le env c q opts, rfl⟩
  · intro h
    rcases hf : assocFind c.json p with _ | v
    · rcases hr : env.readFile p with _ | raw
      · simp [readJsonCache, hf, hr]
      · rcases hp : env.parseJson raw with _ | parsed
        · simp [readJsonCache, hf, hr, hp]
        · exfalso
          rw [hr] at h
          simp [hp] at h
    · simp [readJsonCache, hf]
  · intro h
    rcases hf : assocFind c.bib p with _ | v
    · simp [readBibCache, hf, h]
    · simp [readBibCache, hf]

/-- C8 witness: an environment where every read throws leaves a populated
cache unchanged through both cache readers and both lookups, and clearing
empties it. -/
theorem C8_witness :
    (readJsonCache emptyEnv sampleCacheJ "/p").2 = sampleCacheJ ∧
    (readBibCache emptyEnv sampleCacheJ "/p").2 = sampleCacheJ ∧
    CacheLE sampleCacheJ
      (lookupBibliographyMetadataByPath emptyEnv sampleCacheJ "/x.pdf" {}).2 ∧
    CacheLE sampleCacheJ
      (lookupBibliographyMetadataByCitationKey emptyEnv sampleCacheJ "zzz" {}).2 ∧
    clearBibliographyMetadataCache sampleCacheJ = { json := [], bib := [] } :=
  have h := C8_cache_atomicity emptyEnv sampleCacheJ "/p" "/x.pdf" "zzz" {}
  ⟨h.1 rfl, h.2.1 rfl, h.2.2.1, h.2.2.2.1, h.2.2.2.2⟩

/-- C5 amended: every member of the returned variant list is the
canonicalization of one of the raw variants, the deduplication (performed
before canonicalization, on the raw variants) is duplicate-free, and the
returned list has between 1 and 10 members (not 6 to 12; after
canonicalization duplicates may remain, as `C5_counterexample` shows). -/
theorem C5_variants_canonicalized_bounded (cwd p : String) :
    (∀ m ∈ generatePathVariants cwd p,
      ∃ r ∈ rawPathVariants cwd p, m = normalizeComparisonString r) ∧
    (setFromList (rawPathVariants cwd p)).Nodup ∧
    1 ≤ (generatePathVariants cwd p).length ∧
    (generatePathVariants cwd p).length ≤ 10 := by
  refine ⟨?_, foldl_insertUnique_nodup _ [] List.nodup_nil, ?_, ?_⟩
  · intro m hm
    unfold generatePathVariants at hm
    rcases List.mem_map.mp hm with ⟨r, hr, heq⟩
    refine ⟨r, ?_, heq.symm⟩
    rcases mem_foldl_insertUnique _ [] r hr with h | h
    · cases h
    · exact h
  · unfold generatePathVariants
    rw [List.length_map]
    have hmem0 : jsReplaceChar p '\\' "/" ∈ rawPathVariants cwd p := by
      unfold rawPathVariants
      simp
    have := mem_foldl_insertUnique_of_mem _ [] _ hmem0
    exact List.length_pos.mpr (List.ne_nil_of_mem this)
  · unfold generatePathVariants
    rw [List.length_map]
    have h1 := foldl_insertUnique_length (rawPathVariants cwd p) []
    simp only [List.length_nil, Nat.zero_add] at h1
    have h2 := (rawPathVariants_length cwd p).2
    unfold setFromList
    omega

/-- C5 witness: on `/tmp/x` the variant list is non-empty, within the
1-to-10 bound, and its first member is the canonicalization of a raw
variant. -/
theorem C5_witness :
    1 ≤ (generatePathVariants "/w" "/tmp/x").length ∧
    (generatePathVariants "/w" "/tmp/x").length ≤ 10 ∧
    ∃ r ∈ rawPathVariants "/w" "/tmp/x", "/tmp/x" = normalizeComparisonString r :=
  have h := C5_variants_canonicalized_bounded "/w" "/tmp/x"
  ⟨h.2.2.1, h.2.2.2, h.1 "/tmp/x" (by
    rw [show generatePathVariants "/w" "/tmp/x" =
      ["/tmp/x", ":/tmp/x", ":/tmp/x:", "/tmp/x"] from rfl]
    simp)⟩

/-- C9 (implicit): for an empty or all-whitespace finder-path query the
generated variant set contains the empty string (canonicalization trims the
all-whitespace raw variant to `""`); every string value matches a variant
set containing `""` (the substring rule accepts the empty variant); and
therefore `lookupBibliographyMetadataByPath` on such a query succeeds
against any configured, present, parseable export — for the structured
export, one whose first entry is an object containing any string value;
for a text-export-only configuration, one whose first parsed entry has any
field — returning that entry rather than a validation failure. -/
theorem C9_blank_path_matches (env : Env) (c : Cache)
    (opts : BibliographyLookupOptions) (s jp raw : String) (d e : Json)
    (rest : List Json) (bp content fk fv : String) (be : BibEntry)
    (brest : List BibEntry) (fvs : List (String × String))
    (hws : s.toList.all jsWhitespaceChar = true) :
    "" ∈ generatePathVariants env.cwd s ∧
    (∀ (value : String) (variants : List String), "" ∈ variants →
      matchStringAgainstVariants value variants = true) ∧
    (resolvedJsonPath env opts = some jp → env.access jp = true →
      assocFind c.json jp = none → env.readFile jp = some raw →
      env.parseJson raw = some d → jsFalsy d = false →
      getJsonEntries d = e :: rest → jsObjectLike e = true →
      containsString e = true →
      ∃ m, (lookupBibliographyMetadataByPath env c s opts).1 =
          LookupResult.jsonMatch m ∧ m.item = e) ∧
    (resolvedJsonPath env opts = none → resolvedBibPath env opts = some bp →
      env.access bp = true → assocFind c.bib bp = none →
      env.readFile bp = some content →
      parseBibContent content = be :: brest →
      be.fields = (fk, fv) :: fvs →
      ∃ mb, (lookupBibliographyMetadataByPath env c s opts).1 =
          LookupResult.bibMatch mb ∧ mb.entry = be) := by
  have hrepl : jsReplaceChar s '\\' "/" = s := jsReplaceChar_id_of_all_ws s hws
  have hncs : normalizeComparisonString s = "" :=
    normalizeComparisonString_of_trim_empty s (jsTrim_empty_of_all_whitespace s hws)
  have hvar : "" ∈ generatePathVariants env.cwd s := by
    unfold generatePathVariants
    apply List.mem_map.mpr
    refine ⟨jsReplaceChar s '\\' "/", ?_, by rw [hrepl, hncs]⟩
    apply mem_foldl_insertUnique_of_mem
    unfold rawPathVariants
    simp
  refine ⟨hvar, fun value variants h =>
    matchStringAgainstVariants_of_mem_empty value variants h, ?_, ?_⟩
  · intro hj haj hcache hread hparse hfalsy hentries hobjlike hcontains
    have hnn : isJsonNull d = false := by
      cases d <;> simp_all [jsFalsy, isJsonNull]
    have hrj : readJsonCache env c jp =
        (some d, { c with json := assocSet c.json jp d }) := by
      simp [readJsonCache, hcache, hread, hparse, hnn]
    rcases hfp : findPathInJsonValue e (generatePathVariants env.cwd s) []
        with _ | r
    · exfalso
      have := findPathVal_isSome (generatePathVariants env.cwd s) hvar e hcontains []
      rw [hfp] at this
      simp at this
    · refine ⟨{ item := e, matchType := "path", matchValue := r.2
                propertyPath := r.1, descriptor := buildJsonDescriptor env.home e
                metadataFile := some jp, matchedField := r.1.getLast? }, ?_, rfl⟩
      have hlij : lookupInJson env c s jp =
          (some { item := e, matchType := "path", matchValue := r.2
                  propertyPath := r.1
                  descriptor := buildJsonDescriptor env.home e
                  metadataFile := some jp, matchedField := r.1.getLast? },
           { c with json := assocSet c.json jp d }) := by
        unfold lookupInJson
        rw [hrj]
        simp [hfalsy, hentries, lookupInJsonPure, hobjlike, hfp]
      unfold lookupBibliographyMetadataByPath
      rw [hj]
      simp [haj, hlij]
  · intro hjn hbp hab hcacheB hreadB hparseB hfields
    have hmatch : matchStringAgainstVariants fv (generatePathVariants env.cwd s)
        = true :=
      matchStringAgainstVariants_of_mem_empty fv (generatePathVariants env.cwd s)
        hvar
    have hrb : readBibCache env c bp =
        (some (be :: brest),
         { c with bib := assocSet c.bib bp (be :: brest) }) := by
      simp [readBibCache, hcacheB, hreadB, hparseB]
    refine ⟨{ entry := be, rawEntry := be.rawEntry, matchType := "path"
              matchValue := fv, descriptor := buildBibDescriptor env.home be
              metadataFile := some bp, matchedField := some fk }, ?_, rfl⟩
    have hlib : lookupInBib env c s bp =
        (some { entry := be, rawEntry := be.rawEntry, matchType := "path"
                matchValue := fv, descriptor := buildBibDescriptor env.home be
                metadataFile := some bp, matchedField := some fk },
         { c with bib := assocSet c.bib bp (be :: brest) }) := by
      unfold lookupInBib
      rw [hrb]
      simp [lookupInBibPure, hfields, lookupBibFields, hmatch]
    unfold lookupBibliographyMetadataByPath
    rw [hjn, hbp]
    simp [hab, hlib]

/-- C9 witness: the empty finder path against the sample structured export
returns its (only) entry, and against a text-export-only configuration
returns the first parsed text entry. -/
theorem C9_witness :
    "" ∈ generatePathVariants sampleEnv.cwd "" ∧
    (∃ m, (lookupBibliographyMetadataByPath sampleEnv emptyCache ""
        { jsonPath := some "/j" }).1 = LookupResult.jsonMatch m ∧
      m.item = sampleJson) ∧
    (∃ mb, (lookupBibliographyMetadataByPath sampleEnv emptyCache ""
        { bibPath := some "/b" }).1 = LookupResult.bibMatch mb ∧
      mb.entry = sampleBibEntry) :=
  have h := C9_blank_path_matches sampleEnv emptyCache { jsonPath := some "/j" }
    "" "/j" "JRAW" sampleJson sampleJson [] "/b" sampleBibRaw "title" "T"
    sampleBibEntry [] [("file", "application/pdf:/a/b.pdf:PDF")] rfl
  have h2 := C9_blank_path_matches sampleEnv emptyCache { bibPath := some "/b" }
    "" "/j" "JRAW" sampleJson sampleJson [] "/b" sampleBibRaw "title" "T"
    sampleBibEntry [] [("file", "application/pdf:/a/b.pdf:PDF")] rfl
  ⟨h.1, h.2.2.1 rfl rfl rfl rfl rfl rfl rfl rfl rfl,
   h2.2.2.2 rfl rfl rfl rfl rfl rfl rfl⟩

/-- C10 (implicit): the text-entry parser stores every field under its
lowercased name, while the path-hint key set contains the mixed-case names
`localPath` and `relativePath`; consequently fields written as `localPath`
or `relativePath` in a text entry are never treated as path-hint fields
when collecting attachments from a parsed entry — attachment collection on
any all-lowercase-keyed entry behaves exactly as if the hint set held only
the all-lowercase keys (`path`, `uri`, `url`, with `file` consumed by its
own branch). -/
theorem C10_lowercase_hint_keys :
    (∀ (body : String) (k : String),
      k ∈ (parseBibFields body).map Prod.fst → jsToLower k = k) ∧
    (∀ (home : String) (e : BibEntry),
      (∀ k ∈ e.fields.map Prod.fst, jsToLower k = k) →
      collectBibAttachmentPaths home e =
        collectBibAttachmentPathsLowerHints home e) := by
  constructor
  · intro body k hk
    unfold parseBibFields at hk
    exact parseBibFieldsGo_keys_lower (body.toList.length + 1) body.toList []
      (by simp) k hk
  · intro home e he
    unfold collectBibAttachmentPaths collectBibAttachmentPathsLowerHints
    exact collectBibFold_lower home e.fields [] he

/-- C10 witness: an entry written with `localPath` and `relativePath`
fields parses to lowercased keys, collects no attachments, and agrees with
the lowercase-hints reference collector. -/
theorem C10_witness :
    parseBibEntry
        "@article\x7bk1, localPath = \x7b/a/b.pdf\x7d, relativePath = \x7b/c/d.pdf\x7d\x7d" =
      some sampleHintEntry ∧
    jsToLower "localpath" = "localpath" ∧
    collectBibAttachmentPaths "/h" sampleHintEntry =
      collectBibAttachmentPathsLowerHints "/h" sampleHintEntry ∧
    collectBibAttachmentPaths "/h" sampleHintEntry = [] :=
  ⟨rfl,
   C10_lowercase_hint_keys.1 "localPath = \x7b/a/b.pdf\x7d" "localpath" (by decide),
   C10_lowercase_hint_keys.2 "/h" sampleHintEntry (by decide),
   rfl⟩

end BibMeta
